import Mathlib

/-!
# ComplexMatrixSolver: the Givens-rotation solver of `EquationSystem.h`

A shallow embedding of `GivensRotationSolveMethod/EquationSystem.h` and the
properties of its elimination and back-substitution phases.

Modelling conventions

* `std::complex<double>` is idealised to an arbitrary field `K` (exact
  arithmetic; `ℂ` is the intended instance) and `sqrt` is a parameter, so
  that every definition stays computable for a computable field such as `ℚ`.
* `int` indices and the size `m_SystemSize` are `Int`; the arrays are total
  functions on `Int`, of which only the cells `0 ≤ index < m_SystemSize`
  exist in the program.
* Console output (`PrintSystem`, `PrintVector`) is not modelled.
* The methods are total functions: the source has no `throw`, no status result
  and no test of a divisor, so a call of `Solve` always returns. A second
  version of the methods, with checked array accesses, returns `none` exactly
  when an index is out of bounds.
* In `GetRandomInt` the `int` arithmetic wraps around to 32 bits and `%`
  truncates towards zero; in `GetRandomDouble` the type `double` is idealised
  to exact arithmetic, and `rand ()` and `RAND_MAX` are parameters.
* Division is the division of the field. The theorems about a computed
  quotient carry the hypothesis that the divisor is not zero, so the value a
  field gives to `x / 0` is not relied upon there; the statement for the size
  one is an identity between two quotients by the same divisor. Where a norm
  may be zero (the consistency invariant of the elimination), the methods are
  repeated on values in which a quotient by zero is no number, as in the
  source.
* Memory is unbounded: an allocation of a nonnegative number of cells
  succeeds (in the source it throws `std::bad_alloc` when memory is exhausted).
-/

namespace GivensRotationSolveMethod

/-! ## Loops -/

/-- Runs `n` iterations of an upward counting loop whose counter starts at `i`. -/
def iterUp {σ : Type} (body : Int → σ → σ) : Nat → Int → σ → σ
  | 0, _, s => s
  | n + 1, i, s => iterUp body n (i + 1) (body i s)

/-- The loop `for (int i = lo; i < hi; i++) body`, whose body changes neither
`i` nor `hi`; it runs `hi - lo` times (no time when `hi ≤ lo`). The lemmas
`forUp_first` and `forUp_of_le` are its two unfolding equations. -/
def forUp {σ : Type} (body : Int → σ → σ) (lo hi : Int) (s : σ) : σ :=
  iterUp body (hi - lo).toNat lo s

/-- Runs `n` iterations of a downward counting loop whose counter starts at `i`. -/
def iterDown {σ : Type} (body : Int → σ → σ) : Nat → Int → σ → σ
  | 0, _, s => s
  | n + 1, i, s => iterDown body n (i - 1) (body i s)

/-- The loop `for (int i = hi; i >= 0; i--) body`, whose body does not change
`i`; it runs `hi + 1` times (no time when `hi < 0`). -/
def forDownToZero {σ : Type} (body : Int → σ → σ) (hi : Int) (s : σ) : σ :=
  iterDown body (hi + 1).toNat hi s

/-! ## Data model -/

/-- The private members of `class EquationSystem`. -/
structure EquationSystem (K : Type) where
  /-- Field `int m_SystemSize`. -/
  m_SystemSize : Int
  /-- Left part of the system, `m_A [row] [column]`. -/
  m_A : Int → Int → K
  /-- Right part of the system. -/
  m_F : Int → K
  /-- The generated solution. -/
  X_Generated : Int → K
  /-- The solution found by `Solve`. -/
  X_Found : Int → K

/-- The assignment `M [ r ] [ c ] = v`. -/
def setCell {K : Type} (M : Int → Int → K) (r c : Int) (v : K) : Int → Int → K :=
  Function.update M r (Function.update (M r) c v)

section Code

variable {K : Type} [Field K]

/-- Method `EquationSystem::AllocateCells`: stores the size and allocates the
four arrays; `new std::complex<double> [n]` default-constructs each cell as `0`,
and throws (here `none`) for a negative `n`. The method makes no test of `Size`.
An allocation that fails for lack of memory is not modelled, so that `some`
means: the object exists provided the memory suffices. -/
def AllocateCells (Size : Int) : Option (EquationSystem K) :=
  if Size < 0 then none
  else some
    { m_SystemSize := Size
      m_A := fun _ _ => 0
      m_F := fun _ => 0
      X_Generated := fun _ => 0
      X_Found := fun _ => 0 }

/-- Method `EquationSystem::MatrixByVector`; `temp` is the returned array. -/
def MatrixByVector (s : EquationSystem K) (Matrix : Int → Int → K) (Vector : Int → K) :
    Int → K :=
  forUp (fun i temp =>
      forUp (fun j temp => Function.update temp i (temp i + Matrix i j * Vector j))
        0 s.m_SystemSize (Function.update temp i 0))
    0 s.m_SystemSize (fun _ => 0)

/-- The body of the constructor after `AllocateCells`: the generation loops and
`m_F = MatrixByVector (m_A, X_Generated)`. The values drawn from the random
source are the parameters `randX i` (for `X_Generated [ i ]`) and `randA i j`
(for `m_A [ i ] [ j ]`). -/
def generate (randX : Int → K) (randA : Int → Int → K) (s : EquationSystem K) :
    EquationSystem K :=
  let s := forUp (fun i s =>
      let s := { s with X_Generated := Function.update s.X_Generated i (randX i) }
      forUp (fun j s => { s with m_A := setCell s.m_A i j (randA i j) }) 0 s.m_SystemSize s)
    0 s.m_SystemSize s
  { s with m_F := MatrixByVector s s.m_A s.X_Generated }

/-- The constructor `EquationSystem::EquationSystem (Size, MinRandom, MaxRandom)`:
`AllocateCells (Size)`, then the generation. -/
def EquationSystem.construct (Size : Int) (randX : Int → K) (randA : Int → Int → K) :
    Option (EquationSystem K) :=
  (AllocateCells Size).map (generate randX randA)

/-- The value of an `int` expression whose exact value is `x`: wrap-around to
32 bits in two's complement. -/
def wrapInt32 (x : Int) : Int :=
  (x + 2147483648) % 4294967296 - 2147483648

/-- The raw sample `RandomValue` of `GetRandomInt`, for the value `rand` returned
by `rand ()`; `%` of C++ truncates towards zero. -/
def rawRandomInt (rand iMin iMax : Int) : Int :=
  let d := Int.tmod rand (wrapInt32 (iMax - iMin))
  wrapInt32 (iMin + d)

/-- Method `EquationSystem::GetRandomInt`, for the value `rand` returned by
`rand ()`. -/
def GetRandomInt (rand iMin iMax : Int) : Int :=
  let d := Int.tmod rand (wrapInt32 (iMax - iMin))
  let RandomValue := wrapInt32 (iMin + d)
  if RandomValue ≠ 0 then RandomValue else 1

/-- The raw sample `RandomValue` of `GetRandomDouble`, in exact arithmetic, for
the value `rand` returned by `rand ()` and the constant `RAND_MAX`. -/
def rawRandomDouble (rand RAND_MAX : Int) (dMin dMax : K) : K :=
  let d := (rand : K) / (RAND_MAX : K)
  dMin + d * (dMax - dMin)

/-- Method `EquationSystem::GetRandomDouble`, in exact arithmetic, for the value
`rand` returned by `rand ()` and the constant `RAND_MAX`. -/
def GetRandomDouble [DecidableEq K] (rand RAND_MAX : Int) (dMin dMax : K) : K :=
  let d := (rand : K) / (RAND_MAX : K)
  let RandomValue := dMin + d * (dMax - dMin)
  if RandomValue ≠ 0 then RandomValue else 1

/-- The divisor `buf` of `GetRotationMatrix (C, S, i, j)`. -/
def rotationNorm (sqrt : K → K) (s : EquationSystem K) (i j : Int) : K :=
  sqrt (s.m_A i i * s.m_A i i + s.m_A j i * s.m_A j i)

/-- Method `EquationSystem::GetRotationMatrix`; the result is the pair `(C, S)`. -/
def GetRotationMatrix (sqrt : K → K) (s : EquationSystem K) (i j : Int) : K × K :=
  let buf := sqrt (s.m_A i i * s.m_A i i + s.m_A j i * s.m_A j i)
  (s.m_A i i / buf, s.m_A j i / buf)

/-- Method `EquationSystem::MultiplySystem`. -/
def MultiplySystem (s : EquationSystem K) (i j : Int) (C S : K) : EquationSystem K :=
  let Buf_I := s.m_F i
  let Buf_J := s.m_F j
  let s := { s with m_F := Function.update s.m_F i (C * Buf_I + S * Buf_J) }
  let s := { s with m_F := Function.update s.m_F j (C * Buf_J - S * Buf_I) }
  forUp (fun k s =>
      let Buf_I := s.m_A i k
      let Buf_J := s.m_A j k
      let s := { s with m_A := setCell s.m_A i k (C * Buf_I + S * Buf_J) }
      { s with m_A := setCell s.m_A j k (C * Buf_J - S * Buf_I) })
    0 s.m_SystemSize s

/-- The body of the inner elimination loop of `Solve`: `GetRotationMatrix`
followed by `MultiplySystem`. -/
def rotateStep (sqrt : K → K) (i j : Int) (s : EquationSystem K) : EquationSystem K :=
  let CS := GetRotationMatrix sqrt s i j
  MultiplySystem s i j CS.1 CS.2

/-- The inner elimination loop of `Solve` for the column `i`, run for
`j = i + 1, ..., jEnd - 1`; `Solve` runs it with `jEnd = m_SystemSize`. -/
def columnLoop (sqrt : K → K) (i jEnd : Int) (s : EquationSystem K) : EquationSystem K :=
  forUp (fun j s => rotateStep sqrt i j s) (i + 1) jEnd s

/-- The outer elimination loop of `Solve`, run for `i = 0, ..., iEnd - 1`;
`Solve` runs it with `iEnd = m_SystemSize - 1`. -/
def eliminationLoop (sqrt : K → K) (iEnd : Int) (s : EquationSystem K) : EquationSystem K :=
  forUp (fun i s => columnLoop sqrt i s.m_SystemSize s) 0 iEnd s

/-- The first phase of `Solve` (source lines 175-186). -/
def eliminate (sqrt : K → K) (s : EquationSystem K) : EquationSystem K :=
  eliminationLoop sqrt (s.m_SystemSize - 1) s

/-- The second phase of `Solve` (source lines 188-199). -/
def backSubstitute (s : EquationSystem K) : EquationSystem K :=
  let last := s.m_SystemSize - 1
  let s := { s with X_Found := Function.update s.X_Found last (s.m_F last / s.m_A last last) }
  forDownToZero (fun i s =>
      let temp := forUp (fun j temp => temp + s.X_Found j * s.m_A i j) (i + 1) s.m_SystemSize 0
      { s with X_Found := Function.update s.X_Found i ((s.m_F i - temp) / s.m_A i i) })
    (s.m_SystemSize - 2) s

/-- Method `EquationSystem::Solve`, without the printing: the elimination, then
the back-substitution, with no other exit. -/
def Solve (sqrt : K → K) (s : EquationSystem K) : EquationSystem K :=
  backSubstitute (eliminate sqrt s)

/-! ## Notions used to state the properties -/

/-- The state in which `Solve` calls `GetRotationMatrix (C, S, i, j)`: the
columns before `i` are done, and in column `i` the rows before `j`. -/
def stateBefore (sqrt : K → K) (s : EquationSystem K) (i j : Int) : EquationSystem K :=
  columnLoop sqrt i j (eliminationLoop sqrt i s)

/-- Every rotation norm met during the elimination loop of `Solve` is nonzero. -/
def NormsNonzero (sqrt : K → K) (s : EquationSystem K) : Prop :=
  ∀ i j : Int, 0 ≤ i → i < j → j < s.m_SystemSize →
    rotationNorm sqrt (stateBefore sqrt s i j) i j ≠ 0

/-- Entry `r` of the standard product of the `N × N` matrix `M` and the vector `V`. -/
def rowDot (N : Int) (M : Int → Int → K) (V : Int → K) (r : Int) : K :=
  ∑ c ∈ Finset.Ico 0 N, M r c * V c

/-- The vector `x` solves `M * x = F`, row by row, for the `N × N` system. -/
def IsSolution (N : Int) (M : Int → Int → K) (F : Int → K) (x : Int → K) : Prop :=
  ∀ r : Int, 0 ≤ r → r < N → rowDot N M x r = F r

/-- Every entry of the `N × N` matrix `M` below the main diagonal is zero. -/
def UpperTriangular (N : Int) (M : Int → Int → K) : Prop :=
  ∀ r c : Int, 0 ≤ c → c < r → r < N → M r c = 0

/-- The recurrence by which back-substitution defines `X_Found`. -/
def BackSubstituted (N : Int) (M : Int → Int → K) (F : Int → K) (x : Int → K) : Prop :=
  ∀ r : Int, 0 ≤ r → r < N →
    x r = (F r - ∑ c ∈ Finset.Ico (r + 1) N, x c * M r c) / M r r

/-! ## The same methods with checked array accesses

Every array of a system has `m_SystemSize` cells (`AllocateCells`), and every
row of `m_A` too. In the checked methods each access `v [ i ]` or
`M [ r ] [ c ]` of the source is made by a function that returns `none` when an
index is outside `0 .. m_SystemSize - 1`; nothing else returns `none`: the
source has no `throw` and no test of a divisor, and the division of
`std::complex<double>` does not raise. -/

/-- Runs `n` iterations of an upward counting loop whose body may fail. -/
def iterUpM {σ : Type} (body : Int → σ → Option σ) : Nat → Int → σ → Option σ
  | 0, _, s => some s
  | n + 1, i, s => (body i s).bind (iterUpM body n (i + 1))

/-- The loop `for (int i = lo; i < hi; i++) body` with a body that may fail. -/
def forUpM {σ : Type} (body : Int → σ → Option σ) (lo hi : Int) (s : σ) : Option σ :=
  iterUpM body (hi - lo).toNat lo s

/-- Runs `n` iterations of a downward counting loop whose body may fail. -/
def iterDownM {σ : Type} (body : Int → σ → Option σ) : Nat → Int → σ → Option σ
  | 0, _, s => some s
  | n + 1, i, s => (body i s).bind (iterDownM body n (i - 1))

/-- The loop `for (int i = hi; i >= 0; i--) body` with a body that may fail. -/
def forDownToZeroM {σ : Type} (body : Int → σ → Option σ) (hi : Int) (s : σ) : Option σ :=
  iterDownM body (hi + 1).toNat hi s

/-- The read `v [ i ]` of an array of `N` cells. -/
def readVec (N : Int) (v : Int → K) (i : Int) : Option K :=
  if 0 ≤ i ∧ i < N then some (v i) else none

/-- The write `v [ i ] = x` to an array of `N` cells. -/
def writeVec (N : Int) (v : Int → K) (i : Int) (x : K) : Option (Int → K) :=
  if 0 ≤ i ∧ i < N then some (Function.update v i x) else none

/-- The read `M [ r ] [ c ]` of an `N × N` matrix. -/
def readCell (N : Int) (M : Int → Int → K) (r c : Int) : Option K :=
  if (0 ≤ r ∧ r < N) ∧ (0 ≤ c ∧ c < N) then some (M r c) else none

/-- The write `M [ r ] [ c ] = x` to an `N × N` matrix. -/
def writeCell (N : Int) (M : Int → Int → K) (r c : Int) (x : K) : Option (Int → Int → K) :=
  if (0 ≤ r ∧ r < N) ∧ (0 ≤ c ∧ c < N) then some (setCell M r c x) else none

/-- Method `GetRotationMatrix` with checked accesses, one read for each
occurrence of a cell in the source. -/
def GetRotationMatrixChecked (sqrt : K → K) (s : EquationSystem K) (i j : Int) :
    Option (K × K) := do
  let a1 ← readCell s.m_SystemSize s.m_A i i
  let a2 ← readCell s.m_SystemSize s.m_A i i
  let b1 ← readCell s.m_SystemSize s.m_A j i
  let b2 ← readCell s.m_SystemSize s.m_A j i
  let buf := sqrt (a1 * a2 + b1 * b2)
  let a3 ← readCell s.m_SystemSize s.m_A i i
  let b3 ← readCell s.m_SystemSize s.m_A j i
  pure (a3 / buf, b3 / buf)

/-- Method `MultiplySystem` with checked accesses. -/
def MultiplySystemChecked (s : EquationSystem K) (i j : Int) (C S : K) :
    Option (EquationSystem K) := do
  let Buf_I ← readVec s.m_SystemSize s.m_F i
  let Buf_J ← readVec s.m_SystemSize s.m_F j
  let F1 ← writeVec s.m_SystemSize s.m_F i (C * Buf_I + S * Buf_J)
  let s := { s with m_F := F1 }
  let F2 ← writeVec s.m_SystemSize s.m_F j (C * Buf_J - S * Buf_I)
  let s := { s with m_F := F2 }
  forUpM (fun k s => do
      let Buf_I ← readCell s.m_SystemSize s.m_A i k
      let Buf_J ← readCell s.m_SystemSize s.m_A j k
      let A1 ← writeCell s.m_SystemSize s.m_A i k (C * Buf_I + S * Buf_J)
      let s := { s with m_A := A1 }
      let A2 ← writeCell s.m_SystemSize s.m_A j k (C * Buf_J - S * Buf_I)
      pure { s with m_A := A2 })
    0 s.m_SystemSize s

/-- The body of the inner elimination loop with checked accesses. -/
def rotateStepChecked (sqrt : K → K) (i j : Int) (s : EquationSystem K) :
    Option (EquationSystem K) := do
  let CS ← GetRotationMatrixChecked sqrt s i j
  MultiplySystemChecked s i j CS.1 CS.2

/-- The first phase of `Solve` with checked accesses. -/
def eliminateChecked (sqrt : K → K) (s : EquationSystem K) : Option (EquationSystem K) :=
  forUpM (fun i s => forUpM (fun j s => rotateStepChecked sqrt i j s) (i + 1) s.m_SystemSize s)
    0 (s.m_SystemSize - 1) s

/-- The first statement of the second phase of `Solve` (source line 188) with
checked accesses. -/
def lastRowChecked (s : EquationSystem K) : Option (EquationSystem K) := do
  let last := s.m_SystemSize - 1
  let f ← readVec s.m_SystemSize s.m_F last
  let a ← readCell s.m_SystemSize s.m_A last last
  let X ← writeVec s.m_SystemSize s.X_Found last (f / a)
  pure { s with X_Found := X }

/-- The second phase of `Solve` with checked accesses. -/
def backSubstituteChecked (s : EquationSystem K) : Option (EquationSystem K) := do
  let s ← lastRowChecked s
  forDownToZeroM (fun i s => do
      let temp ← forUpM (fun j temp => do
          let x ← readVec s.m_SystemSize s.X_Found j
          let a ← readCell s.m_SystemSize s.m_A i j
          pure (temp + x * a))
        (i + 1) s.m_SystemSize 0
      let f ← readVec s.m_SystemSize s.m_F i
      let a ← readCell s.m_SystemSize s.m_A i i
      let X ← writeVec s.m_SystemSize s.X_Found i ((f - temp) / a)
      pure { s with X_Found := X })
    (s.m_SystemSize - 2) s

/-- Method `Solve` with checked accesses, without the printing. -/
def SolveChecked (sqrt : K → K) (s : EquationSystem K) : Option (EquationSystem K) := do
  let s ← eliminateChecked sqrt s
  backSubstituteChecked s

/-- The run of `Solve` meets a zero divisor: the norm of some rotation
`(i, j)`, or some diagonal entry by which back-substitution divides. -/
def MeetsZeroDivisor (sqrt : K → K) (s : EquationSystem K) : Prop :=
  (∃ i j : Int, 0 ≤ i ∧ i < j ∧ j < s.m_SystemSize ∧
      rotationNorm sqrt (stateBefore sqrt s i j) i j = 0) ∨
    ∃ r : Int, 0 ≤ r ∧ r < s.m_SystemSize ∧ (eliminate sqrt s).m_A r r = 0

end Code

/-! ## Concrete inputs -/

section Samples

variable (K : Type) [Field K]

/-- The matrix `[[3, 2], [4, 1]]`. -/
def sampleA : Int → Int → K := fun r c =>
  if r = 0 then (if c = 0 then 3 else if c = 1 then 2 else 0)
  else if r = 1 then (if c = 0 then 4 else if c = 1 then 1 else 0)
  else 0

/-- The vector `[7, -2]`. -/
def sampleX : Int → K := fun r => if r = 0 then 7 else if r = 1 then -2 else 0

/-- The system of size two with the matrix `sampleA`, the solution `sampleX` and
the right-hand side `[17, 26]`, their product. -/
def sampleSystem : EquationSystem K :=
  { m_SystemSize := 2
    m_A := sampleA K
    m_F := fun r => if r = 0 then 17 else if r = 1 then 26 else 0
    X_Generated := sampleX K
    X_Found := fun _ => 0 }

/-- The system that the constructor builds for the size two and the samples
`sampleX` and `sampleA`. -/
def sampleConstructed : EquationSystem K :=
  generate (sampleX K) (sampleA K) ⟨2, fun _ _ => 0, fun _ => 0, fun _ => 0, fun _ => 0⟩

/-- The matrix `[[2, 0], [1, 1]]` of the known example. -/
def knownA : Int → Int → K := fun r c =>
  if r = 0 then (if c = 0 then 2 else 0)
  else if r = 1 then (if c = 0 then 1 else if c = 1 then 1 else 0)
  else 0

/-- The vector `[1, 1]` of the known example. -/
def knownX : Int → K := fun r => if r = 0 then 1 else if r = 1 then 1 else 0

/-- The system that the constructor builds for the known example. -/
def knownConstructed : EquationSystem K :=
  generate (knownX K) (knownA K) ⟨2, fun _ _ => 0, fun _ => 0, fun _ => 0, fun _ => 0⟩

/-- The system of size one `a * x = f`. -/
def unitSystem (a f : K) : EquationSystem K :=
  { m_SystemSize := 1
    m_A := fun _ _ => a
    m_F := fun _ => f
    X_Generated := fun _ => 0
    X_Found := fun _ => 0 }

/-- The system of the degenerate-pivot scenario: the matrix `[[0, 0], [1, 1]]`,
with the solution `[1, 1]` and the right-hand side `[0, 2]`, their product. -/
def degenerateSystem : EquationSystem K :=
  { m_SystemSize := 2
    m_A := fun r c => if r = 1 then (if c = 0 then 1 else if c = 1 then 1 else 0) else 0
    m_F := fun r => if r = 1 then 2 else 0
    X_Generated := fun r => if r = 0 then 1 else if r = 1 then 1 else 0
    X_Found := fun _ => 0 }

/-- The system with the matrix `[[1 + i, 1 + i], [-1 + i, 1 + i]]`, where `i` is
the argument `imag` (the imaginary unit when `K` is `ℂ`), and a zero right-hand
side. -/
def isotropicSystem (imag : K) : EquationSystem K :=
  { m_SystemSize := 2
    m_A := fun r c =>
      if r = 0 then (if c = 0 then 1 + imag else if c = 1 then 1 + imag else 0)
      else if r = 1 then (if c = 0 then -1 + imag else if c = 1 then 1 + imag else 0)
      else 0
    m_F := fun _ => 0
    X_Generated := fun _ => 0
    X_Found := fun _ => 0 }

/-- The system with the matrix `[[1, 0], [i / 2, 1]]`, where `i` is the argument
`imag`, and a zero right-hand side: pivot `a = 1`, target `b = i / 2`. -/
def skewSystem (imag : K) : EquationSystem K :=
  { m_SystemSize := 2
    m_A := fun r c =>
      if r = 0 then (if c = 0 then 1 else 0)
      else if r = 1 then (if c = 0 then imag / 2 else if c = 1 then 1 else 0)
      else 0
    m_F := fun _ => 0
    X_Generated := fun _ => 0
    X_Found := fun _ => 0 }

end Samples

/-- A square root on the rationals that knows the square `25`. -/
def sampleSqrt (z : ℚ) : ℚ := if z = 25 then 5 else 0

/-! ## The elimination when a quotient by zero is not a number

The methods above divide with the total division of a field, in which
`x / 0 = 0`. In the source the quotient `0 / 0` of `std::complex<double>` is a
NaN, and every sum, difference, product and quotient with a NaN operand is a
NaN again; a NaN is equal to nothing. The twins below repeat the elimination
statement by statement on values that are a number or `nan`: a quotient by
zero is `nan`, and so is every result of an operation that has `nan` as an
operand. (For a dividend other than zero the source yields an infinity, which
is no number either; it is `nan` here too.) -/

/-- A value of the arithmetic with undefined quotients: a number of `K`, or
`nan`. -/
inductive Value (K : Type) where
  /-- A number. -/
  | num (x : K)
  /-- No number: a quotient by zero or a result computed from one. -/
  | nan

section Extended

variable {K : Type} [Field K] [DecidableEq K]

/-- Sum of two values. -/
def Value.add : Value K → Value K → Value K
  | .num x, .num y => .num (x + y)
  | _, _ => .nan

/-- Difference of two values. -/
def Value.sub : Value K → Value K → Value K
  | .num x, .num y => .num (x - y)
  | _, _ => .nan

/-- Product of two values. -/
def Value.mul : Value K → Value K → Value K
  | .num x, .num y => .num (x * y)
  | _, _ => .nan

/-- Quotient of two values; the quotient by zero is `nan`. -/
def Value.div : Value K → Value K → Value K
  | .num x, .num y => if y = 0 then .nan else .num (x / y)
  | _, _ => .nan

/-- Square root of a value, for the square root `sqrt` of the numbers. -/
def Value.sqrt (sqrt : K → K) : Value K → Value K
  | .num x => .num (sqrt x)
  | .nan => .nan

instance : Add (Value K) := ⟨Value.add⟩

instance : Sub (Value K) := ⟨Value.sub⟩

instance : Mul (Value K) := ⟨Value.mul⟩

instance : Div (Value K) := ⟨Value.div⟩

/-- The system `s` with every cell read as a number. -/
def asValues (s : EquationSystem K) : EquationSystem (Value K) :=
  { m_SystemSize := s.m_SystemSize
    m_A := fun r c => Value.num (s.m_A r c)
    m_F := fun r => Value.num (s.m_F r)
    X_Generated := fun r => Value.num (s.X_Generated r)
    X_Found := fun r => Value.num (s.X_Found r) }

/-- Twin of `MatrixByVector` on values (source lines 125-141). -/
def MatrixByVectorE (s : EquationSystem (Value K)) (Matrix : Int → Int → Value K)
    (Vector : Int → Value K) : Int → Value K :=
  forUp (fun i temp =>
      forUp (fun j temp => Function.update temp i (temp i + Matrix i j * Vector j))
        0 s.m_SystemSize (Function.update temp i (Value.num 0)))
    0 s.m_SystemSize (fun _ => Value.num 0)

/-- Twin of `GetRotationMatrix` on values (source lines 143-151): the two
quotients by `buf` are no numbers when `buf` is zero. -/
def GetRotationMatrixE (sqrt : K → K) (s : EquationSystem (Value K)) (i j : Int) :
    Value K × Value K :=
  let buf := Value.sqrt sqrt (s.m_A i i * s.m_A i i + s.m_A j i * s.m_A j i)
  (s.m_A i i / buf, s.m_A j i / buf)

/-- Twin of `MultiplySystem` on values (source lines 153-171). -/
def MultiplySystemE (s : EquationSystem (Value K)) (i j : Int) (C S : Value K) :
    EquationSystem (Value K) :=
  let Buf_I := s.m_F i
  let Buf_J := s.m_F j
  let s := { s with m_F := Function.update s.m_F i (C * Buf_I + S * Buf_J) }
  let s := { s with m_F := Function.update s.m_F j (C * Buf_J - S * Buf_I) }
  forUp (fun k s =>
      let Buf_I := s.m_A i k
      let Buf_J := s.m_A j k
      let s := { s with m_A := setCell s.m_A i k (C * Buf_I + S * Buf_J) }
      { s with m_A := setCell s.m_A j k (C * Buf_J - S * Buf_I) })
    0 s.m_SystemSize s

/-- Twin of the body of the inner elimination loop on values. -/
def rotateStepE (sqrt : K → K) (i j : Int) (s : EquationSystem (Value K)) :
    EquationSystem (Value K) :=
  let CS := GetRotationMatrixE sqrt s i j
  MultiplySystemE s i j CS.1 CS.2

/-- Twin of the inner elimination loop on values. -/
def columnLoopE (sqrt : K → K) (i jEnd : Int) (s : EquationSystem (Value K)) :
    EquationSystem (Value K) :=
  forUp (fun j s => rotateStepE sqrt i j s) (i + 1) jEnd s

/-- Twin of the outer elimination loop on values. -/
def eliminationLoopE (sqrt : K → K) (iEnd : Int) (s : EquationSystem (Value K)) :
    EquationSystem (Value K) :=
  forUp (fun i s => columnLoopE sqrt i s.m_SystemSize s) 0 iEnd s

/-- Twin of the first phase of `Solve` on values (source lines 175-186). -/
def eliminateE (sqrt : K → K) (s : EquationSystem (Value K)) : EquationSystem (Value K) :=
  eliminationLoopE sqrt (s.m_SystemSize - 1) s

/-- The relation `A * X_Generated = F` between numbers: in every row the
right-hand side and the product, as `MatrixByVector` computes it, are one and
the same number. -/
def ConsistentE (s : EquationSystem (Value K)) : Prop :=
  ∀ r : Int, 0 ≤ r → r < s.m_SystemSize →
    ∃ v : K, s.m_F r = Value.num v ∧ MatrixByVectorE s s.m_A s.X_Generated r = Value.num v

end Extended

section SamplesExtended

variable (K : Type) [Field K]

/-- The system with the matrix `[[0, 1], [0, 1]]`, the solution `[1, 1]` and the
right-hand side `[1, 1]`, their product; its first column is zero. -/
def zeroColumnSystem : EquationSystem K :=
  { m_SystemSize := 2
    m_A := fun r c => if (r = 0 ∨ r = 1) ∧ c = 1 then 1 else 0
    m_F := fun r => if r = 0 ∨ r = 1 then 1 else 0
    X_Generated := fun r => if r = 0 ∨ r = 1 then 1 else 0
    X_Found := fun _ => 0 }

end SamplesExtended

/-! ## Loop lemmas -/

section Loops

variable {σ : Type}

theorem iterUp_succ_last (body : Int → σ → σ) (n : Nat) (i : Int) (s : σ) :
    iterUp body (n + 1) i s = body (i + n) (iterUp body n i s) := by
  induction n generalizing i s with
  | zero => simp [iterUp]
  | succ n ih =>
    rw [iterUp, ih]
    simp only [iterUp]
    congr 1
    push_cast
    ring

theorem forUp_of_le (body : Int → σ → σ) {lo hi : Int} (h : hi ≤ lo) (s : σ) :
    forUp body lo hi s = s := by
  have h0 : (hi - lo).toNat = 0 := by omega
  simp [forUp, h0, iterUp]

theorem forUp_succ_last (body : Int → σ → σ) {lo hi : Int} (h : lo ≤ hi) (s : σ) :
    forUp body lo (hi + 1) s = body hi (forUp body lo hi s) := by
  have h1 : (hi + 1 - lo).toNat = (hi - lo).toNat + 1 := by omega
  have h2 : lo + ((hi - lo).toNat : Int) = hi := by omega
  simp only [forUp, h1, iterUp_succ_last, h2]

theorem forUp_first (body : Int → σ → σ) {lo hi : Int} (h : lo < hi) (s : σ) :
    forUp body lo hi s = forUp body (lo + 1) hi (body lo s) := by
  have h1 : (hi - lo).toNat = (hi - (lo + 1)).toNat + 1 := by omega
  simp only [forUp, h1, iterUp]

/-- Invariant rule for the upward loop. -/
theorem forUp_invariant (body : Int → σ → σ) (P : Int → σ → Prop) {lo hi : Int}
    (hle : lo ≤ hi) (s : σ) (h0 : P lo s)
    (hstep : ∀ k t, lo ≤ k → k < hi → P k t → P (k + 1) (body k t)) :
    P hi (forUp body lo hi s) := by
  obtain ⟨n, rfl⟩ : ∃ n : Nat, hi = lo + n := ⟨(hi - lo).toNat, by omega⟩
  clear hle
  induction n with
  | zero => simpa [forUp_of_le] using h0
  | succ n ih =>
    have e : lo + ((n + 1 : Nat) : Int) = (lo + n) + 1 := by push_cast; ring
    rw [e, forUp_succ_last body (by omega)]
    apply hstep _ _ (by omega) (by omega)
    exact ih fun k t hk1 hk2 hP => hstep k t hk1 (by omega) hP

theorem iterDown_succ_last (body : Int → σ → σ) (n : Nat) (i : Int) (s : σ) :
    iterDown body (n + 1) i s = body (i - n) (iterDown body n i s) := by
  induction n generalizing i s with
  | zero => simp [iterDown]
  | succ n ih =>
    rw [iterDown, ih]
    simp only [iterDown]
    congr 1
    push_cast
    ring

/-- Invariant rule for the downward loop: `P k` holds when the rows above `k`
are done. -/
theorem forDownToZero_invariant (body : Int → σ → σ) (P : Int → σ → Prop) {hi : Int}
    (hle : -1 ≤ hi) (s : σ) (h0 : P hi s)
    (hstep : ∀ k t, 0 ≤ k → k ≤ hi → P k t → P (k - 1) (body k t)) :
    P (-1) (forDownToZero body hi s) := by
  have key : ∀ n : Nat, (n : Int) ≤ hi + 1 → P (hi - n) (iterDown body n hi s) := by
    intro n
    induction n with
    | zero => intro _; simpa [iterDown] using h0
    | succ n ih =>
      intro hn
      rw [iterDown_succ_last]
      have e : hi - ((n + 1 : Nat) : Int) = (hi - n) - 1 := by push_cast; ring
      rw [e]
      exact hstep _ _ (by omega) (by omega) (ih (by omega))
  have := key (hi + 1).toNat (by omega)
  have e : hi - ((hi + 1).toNat : Int) = -1 := by omega
  rw [e] at this
  exact this

end Loops

/-! ## One rotation -/

theorem setCell_apply {K : Type} (M : Int → Int → K) (r c : Int) (v : K) (r' c' : Int) :
    setCell M r c v r' c' = if r' = r ∧ c' = c then v else M r' c' := by
  unfold setCell
  by_cases hr : r' = r
  · subst hr
    by_cases hc : c' = c
    · subst hc; simp
    · simp [Function.update_noteq hc, hc]
  · simp [Function.update_noteq hr, hr]

section Rotation

variable {K : Type} [Field K]

/-- The `k`-loop of `MultiplySystem` started in `t`, described cell by cell
(rows `i ≠ j`). -/
theorem rowLoop_spec (i j : Int) (hij : i ≠ j) (C S : K) (N : Int) (t : EquationSystem K) :
    let u := forUp (fun k s =>
      let Buf_I := s.m_A i k
      let Buf_J := s.m_A j k
      let s := { s with m_A := setCell s.m_A i k (C * Buf_I + S * Buf_J) }
      { s with m_A := setCell s.m_A j k (C * Buf_J - S * Buf_I) }) 0 N t
    u.m_SystemSize = t.m_SystemSize ∧ u.m_F = t.m_F ∧ u.X_Generated = t.X_Generated ∧
      u.X_Found = t.X_Found ∧
      ∀ r c, u.m_A r c =
        if 0 ≤ c ∧ c < N then
          if r = i then C * t.m_A i c + S * t.m_A j c
          else if r = j then C * t.m_A j c - S * t.m_A i c
          else t.m_A r c
        else t.m_A r c := by
  intro u
  by_cases hN : 0 ≤ N
  · refine forUp_invariant _ (fun n u => u.m_SystemSize = t.m_SystemSize ∧ u.m_F = t.m_F ∧
      u.X_Generated = t.X_Generated ∧ u.X_Found = t.X_Found ∧
      ∀ r c, u.m_A r c =
        if 0 ≤ c ∧ c < n then
          if r = i then C * t.m_A i c + S * t.m_A j c
          else if r = j then C * t.m_A j c - S * t.m_A i c
          else t.m_A r c
        else t.m_A r c) hN t ?_ ?_
    · refine ⟨rfl, rfl, rfl, rfl, fun r c => ?_⟩
      have : ¬ (0 ≤ c ∧ c < 0) := by omega
      simp [this]
    · rintro k v hk0 hkN ⟨h1, h2, h3, h4, h5⟩
      refine ⟨h1, h2, h3, h4, fun r c => ?_⟩
      simp only [setCell_apply, h5]
      have hk : ¬ (0 ≤ k ∧ k < k) := by omega
      simp only [hk, if_false]
      by_cases hc : c = k
      · subst hc
        have h' : (0 ≤ c ∧ c < c + 1) := by omega
        simp only [h', if_true, and_true]
        by_cases hrj : r = j
        · subst hrj
          simp [Ne.symm hij]
        · by_cases hri : r = i
          · subst hri; simp [hij]
          · simp [hri, hrj]
      · have h' : (0 ≤ c ∧ c < k + 1) ↔ (0 ≤ c ∧ c < k) := by omega
        simp only [hc, and_false, if_false, h']
  · have hu : u = t := forUp_of_le _ (by omega) t
    rw [hu]
    refine ⟨rfl, rfl, rfl, rfl, fun r c => ?_⟩
    have : ¬ (0 ≤ c ∧ c < N) := by omega
    simp [this]

theorem MultiplySystem_size (s : EquationSystem K) (i j : Int) (hij : i ≠ j) (C S : K) :
    (MultiplySystem s i j C S).m_SystemSize = s.m_SystemSize :=
  (rowLoop_spec i j hij C S s.m_SystemSize _).1

theorem MultiplySystem_X_Generated (s : EquationSystem K) (i j : Int) (hij : i ≠ j)
    (C S : K) : (MultiplySystem s i j C S).X_Generated = s.X_Generated :=
  (rowLoop_spec i j hij C S s.m_SystemSize _).2.2.1

theorem MultiplySystem_X_Found (s : EquationSystem K) (i j : Int) (hij : i ≠ j)
    (C S : K) : (MultiplySystem s i j C S).X_Found = s.X_Found :=
  (rowLoop_spec i j hij C S s.m_SystemSize _).2.2.2.1

theorem MultiplySystem_m_F (s : EquationSystem K) (i j : Int) (hij : i ≠ j) (C S : K)
    (r : Int) :
    (MultiplySystem s i j C S).m_F r =
      if r = i then C * s.m_F i + S * s.m_F j
      else if r = j then C * s.m_F j - S * s.m_F i
      else s.m_F r := by
  have h : (MultiplySystem s i j C S).m_F = _ :=
    (rowLoop_spec i j hij C S s.m_SystemSize _).2.1
  rw [h]
  by_cases hrj : r = j
  · subst hrj; simp [Ne.symm hij]
  · by_cases hri : r = i
    · subst hri; simp [hij]
    · simp [Function.update_noteq, hri, hrj]

theorem MultiplySystem_m_A (s : EquationSystem K) (i j : Int) (hij : i ≠ j) (C S : K)
    (r c : Int) :
    (MultiplySystem s i j C S).m_A r c =
      if 0 ≤ c ∧ c < s.m_SystemSize then
        if r = i then C * s.m_A i c + S * s.m_A j c
        else if r = j then C * s.m_A j c - S * s.m_A i c
        else s.m_A r c
      else s.m_A r c :=
  (rowLoop_spec i j hij C S s.m_SystemSize _).2.2.2.2 r c

end Rotation

section RotationAlgebra

variable {K : Type} [Field K]

theorem rowDot_MultiplySystem (s : EquationSystem K) (i j : Int) (hij : i ≠ j) (C S : K)
    (x : Int → K) (r : Int) :
    rowDot s.m_SystemSize (MultiplySystem s i j C S).m_A x r =
      if r = i then C * rowDot s.m_SystemSize s.m_A x i + S * rowDot s.m_SystemSize s.m_A x j
      else if r = j then
        C * rowDot s.m_SystemSize s.m_A x j - S * rowDot s.m_SystemSize s.m_A x i
      else rowDot s.m_SystemSize s.m_A x r := by
  unfold rowDot
  have hc : ∀ c ∈ Finset.Ico (0 : Int) s.m_SystemSize,
      (MultiplySystem s i j C S).m_A r c * x c =
        (if r = i then C * s.m_A i c + S * s.m_A j c
         else if r = j then C * s.m_A j c - S * s.m_A i c
         else s.m_A r c) * x c := by
    intro c hc
    rw [MultiplySystem_m_A s i j hij, if_pos (Finset.mem_Ico.mp hc)]
  rw [Finset.sum_congr rfl hc]
  split_ifs
  · rw [Finset.mul_sum, Finset.mul_sum, ← Finset.sum_add_distrib]
    exact Finset.sum_congr rfl fun c _ => by ring
  · rw [Finset.mul_sum, Finset.mul_sum, ← Finset.sum_sub_distrib]
    exact Finset.sum_congr rfl fun c _ => by ring
  · rfl

/-- One rotation, with any coefficients, keeps every solution of the system. -/
theorem IsSolution_MultiplySystem (s : EquationSystem K) (i j : Int) (hij : i ≠ j)
    (hi : 0 ≤ i ∧ i < s.m_SystemSize) (hj : 0 ≤ j ∧ j < s.m_SystemSize) (C S : K)
    (x : Int → K) (h : IsSolution s.m_SystemSize s.m_A s.m_F x) :
    IsSolution s.m_SystemSize (MultiplySystem s i j C S).m_A (MultiplySystem s i j C S).m_F x := by
  intro r hr0 hrN
  rw [rowDot_MultiplySystem s i j hij, MultiplySystem_m_F s i j hij, h i hi.1 hi.2,
    h j hj.1 hj.2]
  split_ifs
  · rfl
  · rfl
  · exact h r hr0 hrN

/-- The coefficients of `GetRotationMatrix` satisfy `C * C + S * S = 1`. -/
theorem GetRotationMatrix_unit (sqrt : K → K) (hsqrt : ∀ z, sqrt z * sqrt z = z)
    (s : EquationSystem K) (i j : Int) (hn : rotationNorm sqrt s i j ≠ 0) :
    (GetRotationMatrix sqrt s i j).1 * (GetRotationMatrix sqrt s i j).1 +
      (GetRotationMatrix sqrt s i j).2 * (GetRotationMatrix sqrt s i j).2 = 1 := by
  have h2 := hsqrt (s.m_A i i * s.m_A i i + s.m_A j i * s.m_A j i)
  simp only [GetRotationMatrix]
  unfold rotationNorm at hn
  field_simp
  rw [h2]

/-- A rotation with `C * C + S * S = 1` can be undone: every solution of the
rotated system solves the system before the rotation. -/
theorem IsSolution_of_MultiplySystem (s : EquationSystem K) (i j : Int) (hij : i ≠ j)
    (hi : 0 ≤ i ∧ i < s.m_SystemSize) (hj : 0 ≤ j ∧ j < s.m_SystemSize) (C S : K)
    (hCS : C * C + S * S = 1) (x : Int → K)
    (h : IsSolution s.m_SystemSize (MultiplySystem s i j C S).m_A
      (MultiplySystem s i j C S).m_F x) :
    IsSolution s.m_SystemSize s.m_A s.m_F x := by
  have hI := h i hi.1 hi.2
  have hJ := h j hj.1 hj.2
  rw [rowDot_MultiplySystem s i j hij, MultiplySystem_m_F s i j hij] at hI hJ
  simp only [if_true, if_neg (Ne.symm hij)] at hI hJ
  have ei : rowDot s.m_SystemSize s.m_A x i = s.m_F i := by
    have : (C * C + S * S) * (rowDot s.m_SystemSize s.m_A x i - s.m_F i) = 0 := by
      linear_combination C * hI - S * hJ
    rw [hCS, one_mul] at this
    exact sub_eq_zero.mp this
  have ej : rowDot s.m_SystemSize s.m_A x j = s.m_F j := by
    have : (C * C + S * S) * (rowDot s.m_SystemSize s.m_A x j - s.m_F j) = 0 := by
      linear_combination S * hI + C * hJ
    rw [hCS, one_mul] at this
    exact sub_eq_zero.mp this
  intro r hr0 hrN
  by_cases hri : r = i
  · rw [hri]; exact ei
  by_cases hrj : r = j
  · rw [hrj]; exact ej
  have hR := h r hr0 hrN
  rw [rowDot_MultiplySystem s i j hij, MultiplySystem_m_F s i j hij] at hR
  simpa only [if_neg hri, if_neg hrj] using hR

theorem rotateStep_size (sqrt : K → K) (i j : Int) (hij : i ≠ j) (s : EquationSystem K) :
    (rotateStep sqrt i j s).m_SystemSize = s.m_SystemSize :=
  MultiplySystem_size s i j hij _ _

theorem rotateStep_X_Generated (sqrt : K → K) (i j : Int) (hij : i ≠ j)
    (s : EquationSystem K) : (rotateStep sqrt i j s).X_Generated = s.X_Generated :=
  MultiplySystem_X_Generated s i j hij _ _

/-- The rotation `(i, j)` makes the cell `m_A [ j ] [ i ]` zero. -/
theorem rotateStep_annihilates (sqrt : K → K) (i j : Int) (hij : i ≠ j)
    (s : EquationSystem K) (hi : 0 ≤ i ∧ i < s.m_SystemSize) :
    (rotateStep sqrt i j s).m_A j i = 0 := by
  unfold rotateStep
  rw [MultiplySystem_m_A s i j hij, if_pos hi, if_neg (Ne.symm hij), if_pos rfl]
  simp only [GetRotationMatrix]
  ring

/-- The rotation `(i, j)` makes the pivot `m_A [ i ] [ i ]` equal to the norm. -/
theorem rotateStep_pivot (sqrt : K → K) (hsqrt : ∀ z, sqrt z * sqrt z = z) (i j : Int)
    (hij : i ≠ j) (s : EquationSystem K) (hi : 0 ≤ i ∧ i < s.m_SystemSize)
    (hn : rotationNorm sqrt s i j ≠ 0) :
    (rotateStep sqrt i j s).m_A i i = rotationNorm sqrt s i j := by
  have h2 := hsqrt (s.m_A i i * s.m_A i i + s.m_A j i * s.m_A j i)
  unfold rotateStep
  rw [MultiplySystem_m_A s i j hij, if_pos hi, if_pos rfl]
  simp only [GetRotationMatrix]
  unfold rotationNorm at hn ⊢
  field_simp
  rw [h2]

end RotationAlgebra

/-! ## The elimination loops -/

section Elimination

variable {K : Type} [Field K]

theorem columnLoop_of_le (sqrt : K → K) {i jEnd : Int} (h : jEnd ≤ i + 1)
    (s : EquationSystem K) : columnLoop sqrt i jEnd s = s :=
  forUp_of_le _ h s

theorem columnLoop_succ (sqrt : K → K) {i j : Int} (h : i < j) (s : EquationSystem K) :
    columnLoop sqrt i (j + 1) s = rotateStep sqrt i j (columnLoop sqrt i j s) :=
  forUp_succ_last _ (by omega) s

theorem columnLoop_frame (sqrt : K → K) (i jEnd : Int) (s : EquationSystem K) :
    (columnLoop sqrt i jEnd s).m_SystemSize = s.m_SystemSize ∧
      (columnLoop sqrt i jEnd s).X_Generated = s.X_Generated := by
  by_cases h : i + 1 ≤ jEnd
  · refine forUp_invariant _ (fun _ t => t.m_SystemSize = s.m_SystemSize ∧
      t.X_Generated = s.X_Generated) h s ⟨rfl, rfl⟩ ?_
    rintro k t hk _ ⟨h1, h2⟩
    have hik : i ≠ k := by omega
    exact ⟨(rotateStep_size sqrt i k hik t).trans h1,
      (rotateStep_X_Generated sqrt i k hik t).trans h2⟩
  · rw [columnLoop_of_le sqrt (by omega)]
    exact ⟨rfl, rfl⟩

theorem eliminationLoop_of_le (sqrt : K → K) {iEnd : Int} (h : iEnd ≤ 0)
    (s : EquationSystem K) : eliminationLoop sqrt iEnd s = s :=
  forUp_of_le _ h s

theorem eliminationLoop_frame (sqrt : K → K) (iEnd : Int) (s : EquationSystem K) :
    (eliminationLoop sqrt iEnd s).m_SystemSize = s.m_SystemSize ∧
      (eliminationLoop sqrt iEnd s).X_Generated = s.X_Generated := by
  by_cases h : 0 ≤ iEnd
  · refine forUp_invariant _ (fun _ t => t.m_SystemSize = s.m_SystemSize ∧
      t.X_Generated = s.X_Generated) h s ⟨rfl, rfl⟩ ?_
    rintro k t _ _ ⟨h1, h2⟩
    have h3 := columnLoop_frame sqrt k t.m_SystemSize t
    exact ⟨h3.1.trans h1, h3.2.trans h2⟩
  · rw [eliminationLoop_of_le sqrt (by omega)]
    exact ⟨rfl, rfl⟩

theorem eliminationLoop_succ (sqrt : K → K) {i : Int} (h : 0 ≤ i) (s : EquationSystem K) :
    eliminationLoop sqrt (i + 1) s =
      columnLoop sqrt i s.m_SystemSize (eliminationLoop sqrt i s) := by
  unfold eliminationLoop
  rw [forUp_succ_last _ h]
  have := (eliminationLoop_frame sqrt i s).1
  unfold eliminationLoop at this
  rw [this]

theorem stateBefore_start (sqrt : K → K) (s : EquationSystem K) :
    stateBefore sqrt s 0 1 = s := by
  unfold stateBefore
  rw [columnLoop_of_le sqrt (by omega), eliminationLoop_of_le sqrt (le_refl 0)]

theorem stateBefore_succ (sqrt : K → K) (s : EquationSystem K) {i j : Int} (h : i < j) :
    stateBefore sqrt s i (j + 1) = rotateStep sqrt i j (stateBefore sqrt s i j) :=
  columnLoop_succ sqrt h _

theorem stateBefore_next_column (sqrt : K → K) (s : EquationSystem K) {i : Int} (h : 0 ≤ i) :
    stateBefore sqrt s (i + 1) (i + 1 + 1) = stateBefore sqrt s i s.m_SystemSize := by
  unfold stateBefore
  rw [columnLoop_of_le sqrt (le_refl _), eliminationLoop_succ sqrt h]

theorem stateBefore_frame (sqrt : K → K) (s : EquationSystem K) (i j : Int) :
    (stateBefore sqrt s i j).m_SystemSize = s.m_SystemSize ∧
      (stateBefore sqrt s i j).X_Generated = s.X_Generated := by
  have h1 := columnLoop_frame sqrt i j (eliminationLoop sqrt i s)
  have h2 := eliminationLoop_frame sqrt i s
  exact ⟨h1.1.trans h2.1, h1.2.trans h2.2⟩

/-- When the size is at least one, the elimination ends in the state "before
the rotation `(N - 1, N)`", which is never performed. -/
theorem eliminate_eq_stateBefore (sqrt : K → K) (s : EquationSystem K) :
    eliminate sqrt s = stateBefore sqrt s (s.m_SystemSize - 1) s.m_SystemSize := by
  unfold stateBefore eliminate
  rw [columnLoop_of_le sqrt (by omega)]

/-- Induction along the rotations of the elimination loop: `P i j t` is proved
for the state `t` in which the rotation `(i, j)` is about to be made. -/
theorem stateBefore_induction (sqrt : K → K) (s : EquationSystem K)
    (P : Int → Int → EquationSystem K → Prop) (hstart : P 0 1 s)
    (hrot : ∀ i j, 0 ≤ i → i < j → j < s.m_SystemSize → P i j (stateBefore sqrt s i j) →
      P i (j + 1) (rotateStep sqrt i j (stateBefore sqrt s i j)))
    (hcol : ∀ i t, 0 ≤ i → i + 2 ≤ s.m_SystemSize → P i s.m_SystemSize t →
      P (i + 1) (i + 1 + 1) t) :
    ∀ i j, 0 ≤ i → i < j → j ≤ s.m_SystemSize → P i j (stateBefore sqrt s i j) := by
  have inner : ∀ i : Int, 0 ≤ i → P i (i + 1) (stateBefore sqrt s i (i + 1)) →
      ∀ b : Nat, i + 1 + b ≤ s.m_SystemSize →
        P i (i + 1 + b) (stateBefore sqrt s i (i + 1 + b)) := by
    intro i hi h0 b
    induction b with
    | zero => intro _; simpa using h0
    | succ b ih =>
      intro hb
      have e : i + 1 + ((b + 1 : Nat) : Int) = (i + 1 + b) + 1 := by push_cast; ring
      rw [e, stateBefore_succ sqrt s (by omega)]
      exact hrot i (i + 1 + b) hi (by omega) (by omega) (ih (by omega))
  have outer : ∀ a : Nat, (a : Int) + 1 ≤ s.m_SystemSize →
      P a ((a : Int) + 1) (stateBefore sqrt s a ((a : Int) + 1)) := by
    intro a
    induction a with
    | zero =>
      intro _
      simpa [stateBefore_start] using hstart
    | succ a ih =>
      intro ha
      have e : (((a + 1 : Nat) : Int)) = (a : Int) + 1 := by push_cast; ring
      rw [e, stateBefore_next_column sqrt s (by omega)]
      apply hcol a _ (by omega) (by omega)
      have := inner a (by omega) (ih (by omega)) (s.m_SystemSize - (a + 1)).toNat (by omega)
      have e2 : (a : Int) + 1 + ((s.m_SystemSize - (a + 1)).toNat : Int) = s.m_SystemSize := by
        omega
      rwa [e2] at this
  intro i j hi hij hj
  obtain ⟨a, rfl⟩ : ∃ a : Nat, i = a := ⟨i.toNat, by omega⟩
  have := inner a hi (outer a (by omega)) (j - (a + 1)).toNat (by omega)
  have e2 : (a : Int) + 1 + ((j - (a + 1)).toNat : Int) = j := by omega
  rwa [e2] at this

end Elimination

section EliminationInvariants

variable {K : Type} [Field K]

theorem rotateStep_m_A_other (sqrt : K → K) (i j : Int) (hij : i ≠ j)
    (s : EquationSystem K) (r c : Int) (hri : r ≠ i) (hrj : r ≠ j) :
    (rotateStep sqrt i j s).m_A r c = s.m_A r c := by
  unfold rotateStep
  rw [MultiplySystem_m_A s i j hij]
  simp [hri, hrj]

/-- Every solution of the system in `s` solves the system of each state met
during the elimination, for any `sqrt` (in the arithmetic of the field). -/
theorem stateBefore_IsSolution (sqrt : K → K) (s : EquationSystem K) (x : Int → K)
    (h : IsSolution s.m_SystemSize s.m_A s.m_F x) (i j : Int) (hi : 0 ≤ i) (hij : i < j)
    (hj : j ≤ s.m_SystemSize) :
    IsSolution s.m_SystemSize (stateBefore sqrt s i j).m_A (stateBefore sqrt s i j).m_F x := by
  refine stateBefore_induction sqrt s
    (fun _ _ t => IsSolution s.m_SystemSize t.m_A t.m_F x) h ?_ (fun _ _ _ _ h => h) i j hi hij hj
  intro i j hi hij hj ih
  have hsz := (stateBefore_frame sqrt s i j).1
  rw [← hsz] at ih ⊢
  exact IsSolution_MultiplySystem _ i j (by omega) (by omega) (by omega) _ _ x ih

/-- With nonzero norms the elimination keeps the solution set, state by state. -/
theorem stateBefore_IsSolution_iff (sqrt : K → K) (hsqrt : ∀ z, sqrt z * sqrt z = z)
    (s : EquationSystem K) (hnorm : NormsNonzero sqrt s) (x : Int → K) (i j : Int)
    (hi : 0 ≤ i) (hij : i < j) (hj : j ≤ s.m_SystemSize) :
    IsSolution s.m_SystemSize (stateBefore sqrt s i j).m_A (stateBefore sqrt s i j).m_F x ↔
      IsSolution s.m_SystemSize s.m_A s.m_F x := by
  refine stateBefore_induction sqrt s
    (fun _ _ t => IsSolution s.m_SystemSize t.m_A t.m_F x ↔
      IsSolution s.m_SystemSize s.m_A s.m_F x) Iff.rfl ?_ (fun _ _ _ _ h => h) i j hi hij hj
  intro i j hi hij hj ih
  have hsz := (stateBefore_frame sqrt s i j).1
  rw [← ih]
  have hu := GetRotationMatrix_unit sqrt hsqrt _ i j (hnorm i j hi hij hj)
  constructor
  · intro h
    rw [← hsz] at h ⊢
    exact IsSolution_of_MultiplySystem _ i j (by omega) (by omega) (by omega) _ _ hu x h
  · intro h
    rw [← hsz] at h ⊢
    exact IsSolution_MultiplySystem _ i j (by omega) (by omega) (by omega) _ _ x h

/-- The zeros made so far: in the state before the rotation `(i, j)` the
columns before `i` are zero below the diagonal, and the column `i` is zero in
the rows `i + 1, ..., j - 1`. -/
theorem stateBefore_zeros (sqrt : K → K) (s : EquationSystem K) (i j : Int) (hi : 0 ≤ i)
    (hij : i < j) (hj : j ≤ s.m_SystemSize) :
    (∀ r c, 0 ≤ c → c < i → c < r → r < s.m_SystemSize →
        (stateBefore sqrt s i j).m_A r c = 0) ∧
      ∀ r, i < r → r < j → (stateBefore sqrt s i j).m_A r i = 0 := by
  refine stateBefore_induction sqrt s
    (fun i j t => (∀ r c, 0 ≤ c → c < i → c < r → r < s.m_SystemSize → t.m_A r c = 0) ∧
      ∀ r, i < r → r < j → t.m_A r i = 0) ?_ ?_ ?_ i j hi hij hj
  · exact ⟨fun r c h0 h1 => by omega, fun r h0 h1 => by omega⟩
  · rintro i j hi hij hj ⟨h1, h2⟩
    have hsz := (stateBefore_frame sqrt s i j).1
    have hne : i ≠ j := by omega
    constructor
    · intro r c hc0 hci hcr hrN
      unfold rotateStep
      rw [MultiplySystem_m_A _ i j hne, hsz, if_pos ⟨hc0, by omega⟩]
      split_ifs with e1 e2
      · rw [h1 i c hc0 hci hci (by omega), h1 j c hc0 hci (by omega) hj]; ring
      · rw [h1 i c hc0 hci hci (by omega), h1 j c hc0 hci (by omega) hj]; ring
      · exact h1 r c hc0 hci hcr hrN
    · intro r hir hrj
      by_cases e : r = j
      · rw [e]
        exact rotateStep_annihilates sqrt i j hne _ (by rw [hsz]; omega)
      · rw [rotateStep_m_A_other sqrt i j hne _ r i (by omega) e]
        exact h2 r hir (by omega)
  · rintro i t hi _ ⟨h1, h2⟩
    refine ⟨fun r c hc0 hci hcr hrN => ?_, fun r h3 h4 => by omega⟩
    by_cases e : c = i
    · rw [e]; exact h2 r (by omega) hrN
    · exact h1 r c hc0 (by omega) hcr hrN

/-- With nonzero norms, the pivots of the finished columns are nonzero. -/
theorem stateBefore_pivots (sqrt : K → K) (hsqrt : ∀ z, sqrt z * sqrt z = z)
    (s : EquationSystem K) (hnorm : NormsNonzero sqrt s) (i j : Int) (hi : 0 ≤ i)
    (hij : i < j) (hj : j ≤ s.m_SystemSize) :
    (∀ r, 0 ≤ r → r < i → (stateBefore sqrt s i j).m_A r r ≠ 0) ∧
      (i + 1 < j → (stateBefore sqrt s i j).m_A i i ≠ 0) := by
  refine stateBefore_induction sqrt s
    (fun i j t => (∀ r, 0 ≤ r → r < i → t.m_A r r ≠ 0) ∧ (i + 1 < j → t.m_A i i ≠ 0))
    ?_ ?_ ?_ i j hi hij hj
  · exact ⟨fun r h0 h1 => by omega, fun h => by omega⟩
  · rintro i j hi hij hj ⟨h1, _⟩
    have hsz := (stateBefore_frame sqrt s i j).1
    have hne : i ≠ j := by omega
    constructor
    · intro r hr0 hri
      rw [rotateStep_m_A_other sqrt i j hne _ r r (by omega) (by omega)]
      exact h1 r hr0 hri
    · intro _
      rw [rotateStep_pivot sqrt hsqrt i j hne _ (by rw [hsz]; omega) (hnorm i j hi hij hj)]
      exact hnorm i j hi hij hj
  · rintro i t hi hiN ⟨h1, h2⟩
    refine ⟨fun r hr0 hri => ?_, fun h => by omega⟩
    by_cases e : r = i
    · rw [e]; exact h2 (by omega)
    · exact h1 r hr0 (by omega)

end EliminationInvariants

/-! ## Sums and back-substitution -/

section BackSubstitution

variable {K : Type} [Field K]

theorem Ico_succ_right_int {lo k : Int} (h : lo ≤ k) :
    Finset.Ico lo (k + 1) = insert k (Finset.Ico lo k) := by
  ext c
  simp only [Finset.mem_Ico, Finset.mem_insert]
  omega

theorem Ico_succ_left_int {r N : Int} (h : r < N) :
    Finset.Ico r N = insert r (Finset.Ico (r + 1) N) := by
  ext c
  simp only [Finset.mem_Ico, Finset.mem_insert]
  omega

theorem sum_Ico_succ_right_int (f : Int → K) {lo k : Int} (h : lo ≤ k) :
    ∑ c ∈ Finset.Ico lo (k + 1), f c = ∑ c ∈ Finset.Ico lo k, f c + f k := by
  rw [Ico_succ_right_int h, Finset.sum_insert (by simp), add_comm]

theorem sum_Ico_succ_left_int (f : Int → K) {r N : Int} (h : r < N) :
    ∑ c ∈ Finset.Ico r N, f c = f r + ∑ c ∈ Finset.Ico (r + 1) N, f c := by
  rw [Ico_succ_left_int h, Finset.sum_insert (by simp)]

/-- An accumulation loop `acc += f j` computes the sum over its range. -/
theorem forUp_accumulate (f : Int → K) (lo hi : Int) (a : K) :
    forUp (fun j acc => acc + f j) lo hi a = a + ∑ c ∈ Finset.Ico lo hi, f c := by
  by_cases h : lo ≤ hi
  · refine forUp_invariant _ (fun k acc => acc = a + ∑ c ∈ Finset.Ico lo k, f c) h a
      (by simp) ?_
    intro k t hk _ ht
    rw [ht, sum_Ico_succ_right_int f hk, add_assoc]
  · rw [forUp_of_le _ (by omega), Finset.Ico_eq_empty (by omega)]
    simp

/-- In a row of an upper-triangular matrix the product starts at the diagonal. -/
theorem rowDot_upperTriangular (N : Int) (M : Int → Int → K) (hM : UpperTriangular N M)
    (x : Int → K) (r : Int) (hr0 : 0 ≤ r) (hrN : r < N) :
    rowDot N M x r = M r r * x r + ∑ c ∈ Finset.Ico (r + 1) N, M r c * x c := by
  unfold rowDot
  rw [← Finset.Ico_union_Ico_eq_Ico hr0 (le_of_lt hrN),
    Finset.sum_union (Finset.Ico_disjoint_Ico_consecutive 0 r N), sum_Ico_succ_left_int _ hrN]
  have : ∑ c ∈ Finset.Ico 0 r, M r c * x c = 0 := by
    apply Finset.sum_eq_zero
    intro c hc
    rw [Finset.mem_Ico] at hc
    rw [hM r c hc.1 hc.2 hrN, zero_mul]
  rw [this, zero_add]

/-- Two vectors that obey the recurrence, for systems that agree on and above
the diagonal and in the right-hand side, are equal. -/
theorem BackSubstituted_unique (N : Int) (M M' : Int → Int → K) (F F' : Int → K)
    (hM : ∀ r c, 0 ≤ r → r ≤ c → c < N → M' r c = M r c)
    (hF : ∀ r, 0 ≤ r → r < N → F' r = F r) (x y : Int → K)
    (hx : BackSubstituted N M F x) (hy : BackSubstituted N M' F' y) :
    ∀ r, 0 ≤ r → r < N → x r = y r := by
  have key : ∀ n : Nat, ∀ r, 0 ≤ r → r < N → N - r ≤ n → x r = y r := by
    intro n
    induction n with
    | zero => intro r _ h1 h2; omega
    | succ n ih =>
      intro r hr0 hrN hn
      rw [hx r hr0 hrN, hy r hr0 hrN, hM r r hr0 (le_refl r) hrN, hF r hr0 hrN]
      congr 2
      apply Finset.sum_congr rfl
      intro c hc
      rw [Finset.mem_Ico] at hc
      rw [ih c (by omega) hc.2 (by omega), hM r c hr0 (by omega) hc.2]
  intro r hr0 hrN
  exact key (N - r).toNat r hr0 hrN (by omega)

/-- A solution of an upper-triangular system with nonzero diagonal obeys the
recurrence. -/
theorem BackSubstituted_of_IsSolution (N : Int) (M : Int → Int → K) (F : Int → K)
    (hM : UpperTriangular N M) (hd : ∀ r, 0 ≤ r → r < N → M r r ≠ 0) (x : Int → K)
    (hx : IsSolution N M F x) : BackSubstituted N M F x := by
  intro r hr0 hrN
  have h := hx r hr0 hrN
  rw [rowDot_upperTriangular N M hM x r hr0 hrN] at h
  rw [eq_div_iff (hd r hr0 hrN), ← h]
  have : ∑ c ∈ Finset.Ico (r + 1) N, x c * M r c = ∑ c ∈ Finset.Ico (r + 1) N, M r c * x c :=
    Finset.sum_congr rfl fun c _ => mul_comm _ _
  rw [this]
  ring

/-- A vector that obeys the recurrence solves the upper-triangular system when
the diagonal is nonzero. -/
theorem IsSolution_of_BackSubstituted (N : Int) (M : Int → Int → K) (F : Int → K)
    (hM : UpperTriangular N M) (hd : ∀ r, 0 ≤ r → r < N → M r r ≠ 0) (x : Int → K)
    (hx : BackSubstituted N M F x) : IsSolution N M F x := by
  intro r hr0 hrN
  rw [rowDot_upperTriangular N M hM x r hr0 hrN]
  have h := hx r hr0 hrN
  rw [eq_div_iff (hd r hr0 hrN)] at h
  have : ∑ c ∈ Finset.Ico (r + 1) N, x c * M r c = ∑ c ∈ Finset.Ico (r + 1) N, M r c * x c :=
    Finset.sum_congr rfl fun c _ => mul_comm _ _
  rw [this] at h
  linear_combination h

end BackSubstitution

section BackSubstitutionCode

variable {K : Type} [Field K]

/-- One iteration of the back-substitution loop keeps the rows above `k` and
makes the row `k` obey the recurrence. -/
theorem backSubstitute_step (N : Int) (M : Int → Int → K) (F : Int → K) (k : Int)
    (t : EquationSystem K) (h1 : t.m_SystemSize = N) (h2 : t.m_A = M) (h3 : t.m_F = F)
    (h5 : ∀ r : Int, k < r → r < N →
      t.X_Found r = (F r - ∑ c ∈ Finset.Ico (r + 1) N, t.X_Found c * M r c) / M r r)
    (r : Int) (hr : k - 1 < r) (hrN : r < N) :
    Function.update t.X_Found k
        ((t.m_F k - forUp (fun j temp => temp + t.X_Found j * t.m_A k j) (k + 1)
          t.m_SystemSize 0) / t.m_A k k) r =
      (F r - ∑ c ∈ Finset.Ico (r + 1) N,
        Function.update t.X_Found k
          ((t.m_F k - forUp (fun j temp => temp + t.X_Found j * t.m_A k j) (k + 1)
            t.m_SystemSize 0) / t.m_A k k) c * M r c) / M r r := by
  have hsum : ∀ v : K, ∑ c ∈ Finset.Ico (r + 1) N, Function.update t.X_Found k v c * M r c =
      ∑ c ∈ Finset.Ico (r + 1) N, t.X_Found c * M r c := by
    intro v
    apply Finset.sum_congr rfl
    intro c hc
    rw [Finset.mem_Ico] at hc
    rw [Function.update_noteq (by omega)]
  rw [hsum, forUp_accumulate, zero_add, h1, h2, h3]
  by_cases e : r = k
  · subst e
    simp
  · rw [Function.update_noteq e]
    exact h5 r (by omega) hrN

/-- What the second phase of `Solve` computes, for a size of at least one: it
writes `X_Found` only, and `X_Found` obeys the recurrence. -/
theorem backSubstitute_spec (s : EquationSystem K) (hN : 1 ≤ s.m_SystemSize) :
    (backSubstitute s).m_SystemSize = s.m_SystemSize ∧ (backSubstitute s).m_A = s.m_A ∧
      (backSubstitute s).m_F = s.m_F ∧ (backSubstitute s).X_Generated = s.X_Generated ∧
      BackSubstituted s.m_SystemSize s.m_A s.m_F (backSubstitute s).X_Found := by
  obtain ⟨P, hP⟩ : ∃ P : Int → EquationSystem K → Prop, P = fun k t =>
      t.m_SystemSize = s.m_SystemSize ∧
      t.m_A = s.m_A ∧ t.m_F = s.m_F ∧ t.X_Generated = s.X_Generated ∧
      ∀ r : Int, k < r → r < s.m_SystemSize →
        t.X_Found r =
          (s.m_F r - ∑ c ∈ Finset.Ico (r + 1) s.m_SystemSize, t.X_Found c * s.m_A r c) /
            s.m_A r r := ⟨_, rfl⟩
  have key : P (-1) (backSubstitute s) := by
    refine forDownToZero_invariant _ P (show -1 ≤ s.m_SystemSize - 2 by omega) _ ?_ ?_
    · subst hP
      refine ⟨rfl, rfl, rfl, rfl, fun r hr hrN => ?_⟩
      have e : r = s.m_SystemSize - 1 := by omega
      subst e
      simp
    · subst hP
      rintro k t hk0 _ ⟨h1, h2, h3, h4, h5⟩
      exact ⟨h1, h2, h3, h4, backSubstitute_step _ _ _ k t h1 h2 h3 h5⟩
  subst hP
  obtain ⟨h1, h2, h3, h4, h5⟩ := key
  exact ⟨h1, h2, h3, h4, fun r hr0 hrN => h5 r (by omega) hrN⟩

end BackSubstitutionCode

/-! ## The product and the constructor -/

/-- The generation loop for the row `i`: it writes the cells of that row. -/
theorem generate_row {K : Type} (randA : Int → Int → K) (i N : Int) (hN : 0 ≤ N)
    (t0 : EquationSystem K) :
    let u := forUp (fun j (s : EquationSystem K) =>
      { s with m_A := setCell s.m_A i j (randA i j) }) 0 N t0
    u.m_SystemSize = t0.m_SystemSize ∧ u.X_Generated = t0.X_Generated ∧
      u.X_Found = t0.X_Found ∧
      ∀ r c, u.m_A r c = if r = i ∧ 0 ≤ c ∧ c < N then randA r c else t0.m_A r c := by
  intro u
  refine forUp_invariant _ (fun k (u : EquationSystem K) =>
    u.m_SystemSize = t0.m_SystemSize ∧ u.X_Generated = t0.X_Generated ∧
      u.X_Found = t0.X_Found ∧
      ∀ r c, u.m_A r c = if r = i ∧ 0 ≤ c ∧ c < k then randA r c else t0.m_A r c) hN t0 ?_ ?_
  · refine ⟨rfl, rfl, rfl, fun r c => ?_⟩
    have : ¬ (r = i ∧ 0 ≤ c ∧ c < 0) := by omega
    simp [this]
  · rintro k t hk0 _ ⟨h1, h2, h3, h4⟩
    refine ⟨h1, h2, h3, fun r c => ?_⟩
    simp only [setCell_apply, h4]
    by_cases e : r = i ∧ c = k
    · obtain ⟨rfl, rfl⟩ := e
      have : r = r ∧ 0 ≤ c ∧ c < c + 1 := by omega
      simp [this]
    · have h' : (r = i ∧ 0 ≤ c ∧ c < k + 1) ↔ (r = i ∧ 0 ≤ c ∧ c < k) := by omega
      simp only [e, if_false, h']

section Generation

variable {K : Type} [Field K]

/-- The inner loop of `MatrixByVector` adds the row product to `temp [ i ]`. -/
theorem MatrixByVector_inner (Matrix : Int → Int → K) (Vector : Int → K) (i N : Int)
    (hN : 0 ≤ N) (t0 : Int → K) :
    forUp (fun j temp => Function.update temp i (temp i + Matrix i j * Vector j)) 0 N t0 =
      Function.update t0 i (t0 i + rowDot N Matrix Vector i) := by
  refine forUp_invariant _ (fun k t => t = Function.update t0 i
    (t0 i + ∑ c ∈ Finset.Ico 0 k, Matrix i c * Vector c)) hN t0 (by simp) ?_
  intro k t hk _ ht
  rw [ht, sum_Ico_succ_right_int _ hk]
  simp [add_assoc]

/-- The method `MatrixByVector` returns the standard product in every cell of
the result. -/
theorem MatrixByVector_apply (s : EquationSystem K) (Matrix : Int → Int → K)
    (Vector : Int → K) (i : Int) (hi0 : 0 ≤ i) (hiN : i < s.m_SystemSize) :
    MatrixByVector s Matrix Vector i = rowDot s.m_SystemSize Matrix Vector i := by
  have hN : 0 ≤ s.m_SystemSize := by omega
  have key := forUp_invariant
    (fun i temp =>
      forUp (fun j temp => Function.update temp i (temp i + Matrix i j * Vector j))
        0 s.m_SystemSize (Function.update temp i 0))
    (fun k t => ∀ r : Int, 0 ≤ r → r < k → t r = rowDot s.m_SystemSize Matrix Vector r)
    hN (fun _ => 0) (fun r h0 h1 => by omega) ?_
  · exact key i hi0 hiN
  · intro k t hk0 hkN ht r hr0 hrk
    show forUp _ 0 s.m_SystemSize (Function.update t k 0) r = _
    rw [MatrixByVector_inner Matrix Vector k s.m_SystemSize hN]
    by_cases e : r = k
    · subst e; simp
    · rw [Function.update_noteq e, Function.update_noteq e]
      exact ht r hr0 (by omega)

/-- What the constructor stores after `AllocateCells`: the sampled `X_Generated`
and `m_A`, and `m_F` as returned by `MatrixByVector`. -/
theorem generate_spec (randX : Int → K) (randA : Int → Int → K) (s : EquationSystem K) :
    (generate randX randA s).m_SystemSize = s.m_SystemSize ∧
      (∀ r, 0 ≤ r → r < s.m_SystemSize → (generate randX randA s).X_Generated r = randX r) ∧
      (∀ r c, 0 ≤ r → r < s.m_SystemSize → 0 ≤ c → c < s.m_SystemSize →
        (generate randX randA s).m_A r c = randA r c) ∧
      (generate randX randA s).m_F = MatrixByVector (generate randX randA s)
        (generate randX randA s).m_A (generate randX randA s).X_Generated := by
  by_cases hN : 0 ≤ s.m_SystemSize
  · have key := forUp_invariant
      (fun i (s : EquationSystem K) =>
        let s := { s with X_Generated := Function.update s.X_Generated i (randX i) }
        forUp (fun j s => { s with m_A := setCell s.m_A i j (randA i j) }) 0 s.m_SystemSize s)
      (fun k (u : EquationSystem K) => u.m_SystemSize = s.m_SystemSize ∧
        (∀ r, 0 ≤ r → r < k → u.X_Generated r = randX r) ∧
        ∀ r c, 0 ≤ r → r < k → 0 ≤ c → c < s.m_SystemSize → u.m_A r c = randA r c)
      hN s ⟨rfl, fun r h0 h1 => by omega, fun r c h0 h1 => by omega⟩ ?_
    · exact ⟨key.1, key.2.1, key.2.2, rfl⟩
    · rintro k t hk0 hkN ⟨h1, h2, h3⟩
      have hN' : 0 ≤ t.m_SystemSize := by omega
      obtain ⟨g1, g2, _, g4⟩ := generate_row randA k t.m_SystemSize hN'
        { t with X_Generated := Function.update t.X_Generated k (randX k) }
      refine ⟨g1.trans h1, fun r hr0 hrk => ?_, fun r c hr0 hrk hc0 hcN => ?_⟩
      · have e1 := congrFun g2 r
        simp only at e1 ⊢
        rw [e1]
        by_cases e : r = k
        · subst e; simp
        · rw [Function.update_noteq e]
          exact h2 r hr0 (by omega)
      · have e1 := g4 r c
        simp only at e1 ⊢
        rw [e1]
        by_cases e : r = k
        · subst e
          rw [if_pos ⟨rfl, hc0, by omega⟩]
        · rw [if_neg (fun h => e h.1)]
          exact h3 r c hr0 (by omega) hc0 hcN
  · have e : generate randX randA s = { s with m_F := MatrixByVector s s.m_A s.X_Generated } := by
      unfold generate
      rw [forUp_of_le _ (by omega)]
    rw [e]
    exact ⟨rfl, fun r h0 h1 => by omega, fun r c h0 h1 => by omega, rfl⟩

end Generation

/-! ## The two phases together -/

section SolveLemmas

variable {K : Type} [Field K]

theorem eliminate_frame (sqrt : K → K) (s : EquationSystem K) :
    (eliminate sqrt s).m_SystemSize = s.m_SystemSize ∧
      (eliminate sqrt s).X_Generated = s.X_Generated :=
  eliminationLoop_frame sqrt _ s

theorem eliminate_upperTriangular (sqrt : K → K) (s : EquationSystem K)
    (hN : 1 ≤ s.m_SystemSize) : UpperTriangular s.m_SystemSize (eliminate sqrt s).m_A := by
  intro r c hc0 hcr hrN
  rw [eliminate_eq_stateBefore]
  exact (stateBefore_zeros sqrt s (s.m_SystemSize - 1) s.m_SystemSize (by omega) (by omega)
    (le_refl _)).1 r c hc0 (by omega) hcr hrN

theorem eliminate_IsSolution (sqrt : K → K) (s : EquationSystem K) (hN : 1 ≤ s.m_SystemSize)
    (x : Int → K) (h : IsSolution s.m_SystemSize s.m_A s.m_F x) :
    IsSolution s.m_SystemSize (eliminate sqrt s).m_A (eliminate sqrt s).m_F x := by
  rw [eliminate_eq_stateBefore]
  exact stateBefore_IsSolution sqrt s x h _ _ (by omega) (by omega) (le_refl _)

theorem eliminate_IsSolution_iff (sqrt : K → K) (hsqrt : ∀ z, sqrt z * sqrt z = z)
    (s : EquationSystem K) (hN : 1 ≤ s.m_SystemSize) (hnorm : NormsNonzero sqrt s)
    (x : Int → K) :
    IsSolution s.m_SystemSize (eliminate sqrt s).m_A (eliminate sqrt s).m_F x ↔
      IsSolution s.m_SystemSize s.m_A s.m_F x := by
  rw [eliminate_eq_stateBefore]
  exact stateBefore_IsSolution_iff sqrt hsqrt s hnorm x _ _ (by omega) (by omega) (le_refl _)

theorem eliminate_pivots (sqrt : K → K) (hsqrt : ∀ z, sqrt z * sqrt z = z)
    (s : EquationSystem K) (hN : 1 ≤ s.m_SystemSize) (hnorm : NormsNonzero sqrt s) (r : Int)
    (hr0 : 0 ≤ r) (hr : r < s.m_SystemSize - 1) : (eliminate sqrt s).m_A r r ≠ 0 := by
  rw [eliminate_eq_stateBefore]
  exact (stateBefore_pivots sqrt hsqrt s hnorm _ _ (by omega) (by omega) (le_refl _)).1 r hr0 hr

/-- The method `Solve` writes `X_Found` from the eliminated system by the
recurrence. -/
theorem Solve_BackSubstituted (sqrt : K → K) (s : EquationSystem K) (hN : 1 ≤ s.m_SystemSize) :
    BackSubstituted s.m_SystemSize (eliminate sqrt s).m_A (eliminate sqrt s).m_F
      (Solve sqrt s).X_Found := by
  have h := (backSubstitute_spec (eliminate sqrt s)
    (by rw [(eliminate_frame sqrt s).1]; exact hN)).2.2.2.2
  rwa [(eliminate_frame sqrt s).1] at h

theorem Solve_X_Generated (sqrt : K → K) (s : EquationSystem K) (hN : 1 ≤ s.m_SystemSize) :
    (Solve sqrt s).X_Generated = s.X_Generated := by
  have h := (backSubstitute_spec (eliminate sqrt s)
    (by rw [(eliminate_frame sqrt s).1]; exact hN)).2.2.2.1
  exact h.trans (eliminate_frame sqrt s).2

/-- If the system in `s` has the solution `x` and the diagonal after the
elimination is nonzero, `Solve` finds `x`. -/
theorem Solve_finds (sqrt : K → K) (s : EquationSystem K) (hN : 1 ≤ s.m_SystemSize)
    (x : Int → K) (hx : IsSolution s.m_SystemSize s.m_A s.m_F x)
    (hdiag : ∀ r, 0 ≤ r → r < s.m_SystemSize → (eliminate sqrt s).m_A r r ≠ 0) (r : Int)
    (hr0 : 0 ≤ r) (hrN : r < s.m_SystemSize) : (Solve sqrt s).X_Found r = x r :=
  BackSubstituted_unique s.m_SystemSize _ _ _ _ (fun _ _ _ _ _ => rfl) (fun _ _ _ => rfl) _ _
    (Solve_BackSubstituted sqrt s hN)
    (BackSubstituted_of_IsSolution _ _ _ (eliminate_upperTriangular sqrt s hN) hdiag x
      (eliminate_IsSolution sqrt s hN x hx)) r hr0 hrN

/-- A constructed system has the size asked for, holds the sampled values, and
its right-hand side is the product of its matrix and `X_Generated`. -/
theorem construct_spec (Size : Int) (randX : Int → K) (randA : Int → Int → K)
    (s : EquationSystem K) (hs : EquationSystem.construct Size randX randA = some s) :
    s.m_SystemSize = Size ∧
      (∀ r, 0 ≤ r → r < Size → s.X_Generated r = randX r) ∧
      (∀ r c, 0 ≤ r → r < Size → 0 ≤ c → c < Size → s.m_A r c = randA r c) ∧
      s.m_F = MatrixByVector s s.m_A s.X_Generated ∧
      IsSolution Size s.m_A s.m_F s.X_Generated := by
  unfold EquationSystem.construct AllocateCells at hs
  split_ifs at hs with hneg
  · simp at hs
  · simp only [Option.map_some', Option.some.injEq] at hs
    subst hs
    have h := generate_spec randX randA
      ({ m_SystemSize := Size, m_A := fun _ _ => 0, m_F := fun _ => 0,
         X_Generated := fun _ => 0, X_Found := fun _ => 0 } : EquationSystem K)
    refine ⟨h.1, h.2.1, h.2.2.1, h.2.2.2, fun r hr0 hrN => ?_⟩
    rw [h.2.2.2, MatrixByVector_apply _ _ _ r hr0 (by rw [h.1]; exact hrN), h.1]

theorem sqrt_ne_zero (sqrt : K → K) (hsqrt : ∀ z, sqrt z * sqrt z = z) {z : K} (hz : z ≠ 0) :
    sqrt z ≠ 0 := by
  intro h
  have := hsqrt z
  rw [h, mul_zero] at this
  exact hz this.symm

end SolveLemmas

/-! ## Systems of size two, the concrete inputs, loops with any coefficients -/

section Helpers

variable {K : Type} [Field K]

theorem eliminate_size_two (sqrt : K → K) (s : EquationSystem K) (h : s.m_SystemSize = 2) :
    eliminate sqrt s = rotateStep sqrt 0 1 s := by
  simp [eliminate, eliminationLoop, columnLoop, forUp, iterUp, h]

theorem NormsNonzero_size_two (sqrt : K → K) (s : EquationSystem K) (h : s.m_SystemSize = 2)
    (hn : sqrt (s.m_A 0 0 * s.m_A 0 0 + s.m_A 1 0 * s.m_A 1 0) ≠ 0) : NormsNonzero sqrt s := by
  intro i j hi hij hj
  obtain ⟨rfl, rfl⟩ : i = 0 ∧ j = 1 := by omega
  rw [stateBefore_start]
  exact hn

/-- The diagonal of a system of size two after the elimination. -/
theorem eliminate_size_two_diagonal (sqrt : K → K) (s : EquationSystem K)
    (h : s.m_SystemSize = 2) :
    (eliminate sqrt s).m_A 0 0 =
        (s.m_A 0 0 * s.m_A 0 0 + s.m_A 1 0 * s.m_A 1 0) /
          sqrt (s.m_A 0 0 * s.m_A 0 0 + s.m_A 1 0 * s.m_A 1 0) ∧
      (eliminate sqrt s).m_A 1 1 =
        (s.m_A 0 0 * s.m_A 1 1 - s.m_A 1 0 * s.m_A 0 1) /
          sqrt (s.m_A 0 0 * s.m_A 0 0 + s.m_A 1 0 * s.m_A 1 0) := by
  rw [eliminate_size_two sqrt s h]
  unfold rotateStep
  rw [MultiplySystem_m_A s 0 1 (by decide), MultiplySystem_m_A s 0 1 (by decide)]
  simp only [h, GetRotationMatrix]
  norm_num
  constructor <;> ring

theorem complex_sqrt_mul_self (z : ℂ) :
    z ^ (((2 : ℕ) : ℂ)⁻¹) * z ^ (((2 : ℕ) : ℂ)⁻¹) = z := by
  rw [← pow_two]
  exact Complex.cpow_nat_inv_pow z two_ne_zero

theorem complex_sqrt_ne_zero {z : ℂ} (hz : z ≠ 0) : z ^ (((2 : ℕ) : ℂ)⁻¹) ≠ 0 :=
  sqrt_ne_zero (fun z : ℂ => z ^ (((2 : ℕ) : ℂ)⁻¹)) complex_sqrt_mul_self hz

theorem construct_sample (K : Type) [Field K] :
    EquationSystem.construct 2 (sampleX K) (sampleA K) = some (sampleConstructed K) := by
  simp [EquationSystem.construct, AllocateCells, sampleConstructed]

theorem construct_known (K : Type) [Field K] :
    EquationSystem.construct 2 (knownX K) (knownA K) = some (knownConstructed K) := by
  simp [EquationSystem.construct, AllocateCells, knownConstructed]

/-- The entries of the constructed sample system that the elimination reads. -/
theorem generate_sample (K : Type) [Field K] :
    (sampleConstructed K).m_SystemSize = 2 ∧ (sampleConstructed K).m_A 0 0 = 3 ∧
      (sampleConstructed K).m_A 0 1 = 2 ∧ (sampleConstructed K).m_A 1 0 = 4 ∧
      (sampleConstructed K).m_A 1 1 = 1 := by
  have h := generate_spec (sampleX K) (sampleA K)
    ⟨2, fun _ _ => 0, fun _ => 0, fun _ => 0, fun _ => 0⟩
  unfold sampleConstructed
  refine ⟨h.1, ?_, ?_, ?_, ?_⟩
  · rw [h.2.2.1 0 0 (by simp) (by simp) (by simp) (by simp)]; simp [sampleA]
  · rw [h.2.2.1 0 1 (by simp) (by simp) (by simp) (by simp)]; simp [sampleA]
  · rw [h.2.2.1 1 0 (by simp) (by simp) (by simp) (by simp)]; simp [sampleA]
  · rw [h.2.2.1 1 1 (by simp) (by simp) (by simp) (by simp)]; simp [sampleA]

theorem sum_Ico_zero_two {K : Type} [Field K] (f : Int → K) :
    ∑ c ∈ Finset.Ico (0 : Int) 2, f c = f 0 + f 1 := by
  have e : (2 : Int) = 0 + 1 + 1 := by norm_num
  rw [e, sum_Ico_succ_right_int f (by norm_num), sum_Ico_succ_right_int f (le_refl 0)]
  simp

theorem sampleSqrt_norm_ne_zero :
    sampleSqrt ((sampleSystem ℚ).m_A 0 0 * (sampleSystem ℚ).m_A 0 0 +
      (sampleSystem ℚ).m_A 1 0 * (sampleSystem ℚ).m_A 1 0) ≠ 0 := by
  norm_num [sampleSystem, sampleA, sampleSqrt]

theorem sampleSystem_IsSolution (K : Type) [Field K] :
    IsSolution (sampleSystem K).m_SystemSize (sampleSystem K).m_A (sampleSystem K).m_F
      (sampleSystem K).X_Generated := by
  intro r hr0 hrN
  have hr : r = 0 ∨ r = 1 := by
    have : r < 2 := hrN
    omega
  have e : (sampleSystem K).m_SystemSize = 2 := rfl
  rw [rowDot, e, sum_Ico_zero_two]
  rcases hr with rfl | rfl
  · norm_num [sampleSystem, sampleA, sampleX]
  · norm_num [sampleSystem, sampleA, sampleX]

end Helpers

/-! ## Frames and pivots -/

section Frames

variable {K : Type} [Field K]

theorem iterUp_preserves {σ : Type} (body : Int → σ → σ) (P : σ → Prop)
    (hstep : ∀ k t, P t → P (body k t)) (n : Nat) (i : Int) (s : σ) (h : P s) :
    P (iterUp body n i s) := by
  induction n generalizing i s with
  | zero => exact h
  | succ n ih => exact ih (i + 1) (body i s) (hstep i s h)

theorem iterDown_preserves {σ : Type} (body : Int → σ → σ) (P : σ → Prop)
    (hstep : ∀ k t, P t → P (body k t)) (n : Nat) (i : Int) (s : σ) (h : P s) :
    P (iterDown body n i s) := by
  induction n generalizing i s with
  | zero => exact h
  | succ n ih => exact ih (i - 1) (body i s) (hstep i s h)

/-- The method `MultiplySystem`, for any two indices (equal or not), changes
neither the size nor the two solution vectors, and writes only the rows `i` and
`j` of `m_A` and the cells `i` and `j` of `m_F`. -/
theorem MultiplySystem_frame (s : EquationSystem K) (i j : Int) (C S : K) :
    (MultiplySystem s i j C S).m_SystemSize = s.m_SystemSize ∧
      (MultiplySystem s i j C S).X_Generated = s.X_Generated ∧
      (MultiplySystem s i j C S).X_Found = s.X_Found ∧
      (∀ r, r ≠ i → r ≠ j → (MultiplySystem s i j C S).m_F r = s.m_F r) ∧
      ∀ r c, r ≠ i → r ≠ j → (MultiplySystem s i j C S).m_A r c = s.m_A r c := by
  unfold MultiplySystem forUp
  refine iterUp_preserves _ (fun (t : EquationSystem K) => t.m_SystemSize = s.m_SystemSize ∧
    t.X_Generated = s.X_Generated ∧ t.X_Found = s.X_Found ∧
    (∀ r, r ≠ i → r ≠ j → t.m_F r = s.m_F r) ∧
    ∀ r c, r ≠ i → r ≠ j → t.m_A r c = s.m_A r c) ?_ _ _ _ ?_
  · rintro k t ⟨h1, h2, h3, h4, h5⟩
    refine ⟨h1, h2, h3, h4, fun r c hri hrj => ?_⟩
    simp only [setCell_apply, hri, hrj, false_and, if_false]
    exact h5 r c hri hrj
  · refine ⟨rfl, rfl, rfl, fun r hri hrj => ?_, fun _ _ _ _ => rfl⟩
    simp only [Function.update_noteq hrj, Function.update_noteq hri]

theorem backSubstitute_frame (s : EquationSystem K) :
    (backSubstitute s).m_SystemSize = s.m_SystemSize ∧ (backSubstitute s).m_A = s.m_A ∧
      (backSubstitute s).m_F = s.m_F ∧ (backSubstitute s).X_Generated = s.X_Generated := by
  unfold backSubstitute forDownToZero
  dsimp only
  refine iterDown_preserves _ (fun (t : EquationSystem K) => t.m_SystemSize = s.m_SystemSize ∧
    t.m_A = s.m_A ∧ t.m_F = s.m_F ∧ t.X_Generated = s.X_Generated) ?_ _ _ _ ⟨rfl, rfl, rfl, rfl⟩
  exact fun _ _ h => h

/-- With nonzero norms, the pivot of a finished column is the norm of the last
rotation of that column, and the pivot of the column in progress is the norm of
the rotation just made. -/
theorem stateBefore_pivot_eq (sqrt : K → K) (hsqrt : ∀ z, sqrt z * sqrt z = z)
    (s : EquationSystem K) (hnorm : NormsNonzero sqrt s) (i j : Int) (hi : 0 ≤ i)
    (hij : i < j) (hj : j ≤ s.m_SystemSize) :
    (∀ r, 0 ≤ r → r < i → (stateBefore sqrt s i j).m_A r r =
        rotationNorm sqrt (stateBefore sqrt s r (s.m_SystemSize - 1)) r (s.m_SystemSize - 1)) ∧
      (i + 1 < j → (stateBefore sqrt s i j).m_A i i =
        rotationNorm sqrt (stateBefore sqrt s i (j - 1)) i (j - 1)) := by
  refine stateBefore_induction sqrt s
    (fun i j t => (∀ r, 0 ≤ r → r < i → t.m_A r r =
        rotationNorm sqrt (stateBefore sqrt s r (s.m_SystemSize - 1)) r (s.m_SystemSize - 1)) ∧
      (i + 1 < j → t.m_A i i = rotationNorm sqrt (stateBefore sqrt s i (j - 1)) i (j - 1)))
    ?_ ?_ ?_ i j hi hij hj
  · exact ⟨fun r h0 h1 => by omega, fun h => by omega⟩
  · rintro i j hi hij hj ⟨h1, _⟩
    have hsz := (stateBefore_frame sqrt s i j).1
    have hne : i ≠ j := by omega
    constructor
    · intro r hr0 hri
      rw [rotateStep_m_A_other sqrt i j hne _ r r (by omega) (by omega)]
      exact h1 r hr0 hri
    · intro _
      have e : j + 1 - 1 = j := by ring
      rw [e]
      exact rotateStep_pivot sqrt hsqrt i j hne _ (by rw [hsz]; omega) (hnorm i j hi hij hj)
  · rintro i t hi hiN ⟨h1, h2⟩
    refine ⟨fun r hr0 hri => ?_, fun h => by omega⟩
    by_cases e : r = i
    · rw [e]; exact h2 (by omega)
    · exact h1 r hr0 (by omega)

end Frames

/-! ## Complex numbers -/

section ComplexLemmas

theorem complex_sq_add_sq_eq_zero_iff (a b : ℂ) :
    a * a + b * b = 0 ↔ b = Complex.I * a ∨ b = -Complex.I * a := by
  have h : a * a + b * b = (b - Complex.I * a) * (b - -Complex.I * a) := by
    ring_nf
    rw [Complex.I_sq]
    ring
  rw [h, mul_eq_zero, sub_eq_zero, sub_eq_zero]

theorem sqrt_eq_zero_iff {K : Type} [Field K] (sqrt : K → K) (hsqrt : ∀ z, sqrt z * sqrt z = z)
    (z : K) : sqrt z = 0 ↔ z = 0 := by
  constructor
  · intro h
    have := hsqrt z
    rw [h, mul_zero] at this
    exact this.symm
  · intro h
    subst h
    exact mul_self_eq_zero.mp (hsqrt 0)

theorem complex_sqrt_one : (1 : ℂ) ^ (((2 : ℕ) : ℂ)⁻¹) = 1 := Complex.one_cpow _

end ComplexLemmas

/-! ## The checked methods agree with the unchecked ones -/

section CheckedLoops

variable {σ : Type}

theorem iterUpM_eq_some (bodyM : Int → σ → Option σ) (body : Int → σ → σ) (P : σ → Prop)
    (n : Nat) (i : Int) (s : σ) (hP : P s)
    (hstep : ∀ k t, i ≤ k → k < i + n → P t → bodyM k t = some (body k t) ∧ P (body k t)) :
    iterUpM bodyM n i s = some (iterUp body n i s) ∧ P (iterUp body n i s) := by
  induction n generalizing i s with
  | zero => exact ⟨rfl, hP⟩
  | succ n ih =>
    obtain ⟨h1, h2⟩ := hstep i s (le_refl i) (by push_cast; omega) hP
    simp only [iterUpM, iterUp, h1, Option.some_bind]
    exact ih (i + 1) (body i s) h2 fun k t hk1 hk2 hPt =>
      hstep k t (by omega) (by push_cast at hk2 ⊢; omega) hPt

/-- A checked upward loop whose body succeeds under the invariant `P` returns
what the unchecked loop returns. -/
theorem forUpM_eq_some (bodyM : Int → σ → Option σ) (body : Int → σ → σ) (P : σ → Prop)
    (lo hi : Int) (s : σ) (hP : P s)
    (hstep : ∀ k t, lo ≤ k → k < hi → P t → bodyM k t = some (body k t) ∧ P (body k t)) :
    forUpM bodyM lo hi s = some (forUp body lo hi s) ∧ P (forUp body lo hi s) :=
  iterUpM_eq_some bodyM body P _ lo s hP fun k t hk1 hk2 hPt =>
    hstep k t hk1 (by omega) hPt

theorem iterDownM_eq_some (bodyM : Int → σ → Option σ) (body : Int → σ → σ) (P : σ → Prop)
    (n : Nat) (i : Int) (s : σ) (hP : P s)
    (hstep : ∀ k t, i - n < k → k ≤ i → P t → bodyM k t = some (body k t) ∧ P (body k t)) :
    iterDownM bodyM n i s = some (iterDown body n i s) ∧ P (iterDown body n i s) := by
  induction n generalizing i s with
  | zero => exact ⟨rfl, hP⟩
  | succ n ih =>
    obtain ⟨h1, h2⟩ := hstep i s (by push_cast; omega) (le_refl i) hP
    simp only [iterDownM, iterDown, h1, Option.some_bind]
    exact ih (i - 1) (body i s) h2 fun k t hk1 hk2 hPt =>
      hstep k t (by push_cast at hk1 ⊢; omega) (by omega) hPt

/-- A checked downward loop whose body succeeds under the invariant `P` returns
what the unchecked loop returns. -/
theorem forDownToZeroM_eq_some (bodyM : Int → σ → Option σ) (body : Int → σ → σ)
    (P : σ → Prop) (hi : Int) (s : σ) (hP : P s)
    (hstep : ∀ k t, 0 ≤ k → k ≤ hi → P t → bodyM k t = some (body k t) ∧ P (body k t)) :
    forDownToZeroM bodyM hi s = some (forDownToZero body hi s) ∧
      P (forDownToZero body hi s) :=
  iterDownM_eq_some bodyM body P _ hi s hP fun k t hk1 hk2 hPt =>
    hstep k t (by omega) hk2 hPt

end CheckedLoops

section CheckedAccess

theorem readVec_eq_some {K : Type} (N : Int) (v : Int → K) (i : Int) (h : 0 ≤ i ∧ i < N) :
    readVec N v i = some (v i) := if_pos h

theorem writeVec_eq_some {K : Type} (N : Int) (v : Int → K) (i : Int) (x : K) (h : 0 ≤ i ∧ i < N) :
    writeVec N v i x = some (Function.update v i x) := if_pos h

theorem readCell_eq_some {K : Type} (N : Int) (M : Int → Int → K) (r c : Int) (hr : 0 ≤ r ∧ r < N)
    (hc : 0 ≤ c ∧ c < N) : readCell N M r c = some (M r c) := if_pos ⟨hr, hc⟩

theorem writeCell_eq_some {K : Type} (N : Int) (M : Int → Int → K) (r c : Int) (x : K)
    (hr : 0 ≤ r ∧ r < N) (hc : 0 ≤ c ∧ c < N) :
    writeCell N M r c x = some (setCell M r c x) := if_pos ⟨hr, hc⟩

end CheckedAccess

section CheckedMethods

variable {K : Type} [Field K]

/-- With both indices inside the system, no access of `GetRotationMatrix` is
out of bounds. -/
theorem GetRotationMatrixChecked_eq_some (sqrt : K → K) (s : EquationSystem K) (i j : Int)
    (hi : 0 ≤ i ∧ i < s.m_SystemSize) (hj : 0 ≤ j ∧ j < s.m_SystemSize) :
    GetRotationMatrixChecked sqrt s i j = some (GetRotationMatrix sqrt s i j) := by
  simp [GetRotationMatrixChecked, GetRotationMatrix, readCell_eq_some _ _ _ _ hi hi,
    readCell_eq_some _ _ _ _ hj hi]

/-- With both indices inside the system, no access of `MultiplySystem` is out
of bounds. -/
theorem MultiplySystemChecked_eq_some (s : EquationSystem K) (i j : Int)
    (hi : 0 ≤ i ∧ i < s.m_SystemSize) (hj : 0 ≤ j ∧ j < s.m_SystemSize) (C S : K) :
    MultiplySystemChecked s i j C S = some (MultiplySystem s i j C S) := by
  unfold MultiplySystemChecked MultiplySystem
  simp only [readVec_eq_some _ _ _ hi, readVec_eq_some _ _ _ hj, writeVec_eq_some _ _ _ _ hi,
    writeVec_eq_some _ _ _ _ hj, Option.bind_eq_bind, Option.some_bind]
  refine (forUpM_eq_some _ _ (fun (t : EquationSystem K) => t.m_SystemSize = s.m_SystemSize)
    _ _ _ ?_ ?_).1
  · rfl
  intro k t hk0 hkN ht
  have hkt : 0 ≤ k ∧ k < t.m_SystemSize := by rw [ht]; exact ⟨hk0, hkN⟩
  have hit : 0 ≤ i ∧ i < t.m_SystemSize := by rw [ht]; exact hi
  have hjt : 0 ≤ j ∧ j < t.m_SystemSize := by rw [ht]; exact hj
  refine ⟨?_, ht⟩
  simp only [readCell_eq_some _ _ _ _ hit hkt, readCell_eq_some _ _ _ _ hjt hkt,
    writeCell_eq_some _ _ _ _ _ hit hkt, writeCell_eq_some _ _ _ _ _ hjt hkt,
    Option.bind_eq_bind, Option.some_bind, Option.pure_def]

theorem rotateStepChecked_eq_some (sqrt : K → K) (i j : Int) (s : EquationSystem K)
    (hi : 0 ≤ i ∧ i < s.m_SystemSize) (hj : 0 ≤ j ∧ j < s.m_SystemSize) :
    rotateStepChecked sqrt i j s = some (rotateStep sqrt i j s) := by
  simp only [rotateStepChecked, rotateStep, GetRotationMatrixChecked_eq_some sqrt s i j hi hj,
    Option.bind_eq_bind, Option.some_bind]
  exact MultiplySystemChecked_eq_some s i j hi hj _ _

/-- No access of the elimination loops is out of bounds, whatever the size. -/
theorem eliminateChecked_eq_some (sqrt : K → K) (s : EquationSystem K) :
    eliminateChecked sqrt s = some (eliminate sqrt s) := by
  unfold eliminateChecked eliminate eliminationLoop
  refine (forUpM_eq_some _ _ (fun (t : EquationSystem K) => t.m_SystemSize = s.m_SystemSize)
    _ _ _ rfl ?_).1
  intro i t hi0 hiN ht
  have h := forUpM_eq_some (fun j u => rotateStepChecked sqrt i j u)
    (fun j u => rotateStep sqrt i j u)
    (fun (u : EquationSystem K) => u.m_SystemSize = s.m_SystemSize) (i + 1) t.m_SystemSize t ht
    (fun j u hj1 hjN hu => ⟨rotateStepChecked_eq_some sqrt i j u (by rw [hu]; omega)
      (by rw [hu]; omega), (rotateStep_size sqrt i j (by omega) u).trans hu⟩)
  exact h

/-- For a size of at least one no access of back-substitution is out of
bounds. -/
theorem backSubstituteChecked_eq_some (s : EquationSystem K) (hN : 1 ≤ s.m_SystemSize) :
    backSubstituteChecked s = some (backSubstitute s) := by
  have hlast : 0 ≤ s.m_SystemSize - 1 ∧ s.m_SystemSize - 1 < s.m_SystemSize := by omega
  unfold backSubstituteChecked lastRowChecked backSubstitute
  simp only [readVec_eq_some _ _ _ hlast, readCell_eq_some _ _ _ _ hlast hlast,
    writeVec_eq_some _ _ _ _ hlast, Option.bind_eq_bind, Option.some_bind, Option.pure_def]
  refine (forDownToZeroM_eq_some _ _
    (fun (t : EquationSystem K) => t.m_SystemSize = s.m_SystemSize) _ _ ?_ ?_).1
  · rfl
  intro i t hi0 hiN ht
  have hit : 0 ≤ i ∧ i < t.m_SystemSize := by rw [ht]; omega
  have htemp := (forUpM_eq_some
    (fun j temp => do
      let x ← readVec t.m_SystemSize t.X_Found j
      let a ← readCell t.m_SystemSize t.m_A i j
      pure (temp + x * a))
    (fun j temp => temp + t.X_Found j * t.m_A i j) (fun _ => True) (i + 1) t.m_SystemSize 0
    trivial (fun j temp hj1 hjN _ => by
      have hjt : 0 ≤ j ∧ j < t.m_SystemSize := ⟨by omega, hjN⟩
      simp only [readVec_eq_some _ _ _ hjt, readCell_eq_some _ _ _ _ hit hjt,
        Option.bind_eq_bind, Option.some_bind, Option.pure_def, and_self])).1
  simp only [Option.bind_eq_bind, Option.pure_def] at htemp
  refine ⟨?_, ht⟩
  simp only [htemp, readVec_eq_some _ _ _ hit, readCell_eq_some _ _ _ _ hit hit,
    writeVec_eq_some _ _ _ _ hit, Option.bind_eq_bind, Option.some_bind, Option.pure_def]

/-- For a size of at least one no access of `Solve` is out of bounds. -/
theorem SolveChecked_eq_some (sqrt : K → K) (s : EquationSystem K) (hN : 1 ≤ s.m_SystemSize) :
    SolveChecked sqrt s = some (Solve sqrt s) := by
  unfold SolveChecked Solve
  simp only [eliminateChecked_eq_some, Option.bind_eq_bind, Option.some_bind]
  exact backSubstituteChecked_eq_some _ (by rw [(eliminate_frame sqrt s).1]; exact hN)

/-- For the size zero the first statement of back-substitution reads the cell
`-1` of `m_F`, which is out of bounds. -/
theorem SolveChecked_size_zero (sqrt : K → K) (s : EquationSystem K)
    (h0 : s.m_SystemSize = 0) :
    eliminateChecked sqrt s = some s ∧ readVec s.m_SystemSize s.m_F (s.m_SystemSize - 1) = none ∧
      lastRowChecked s = none ∧ SolveChecked sqrt s = none := by
  have he : eliminateChecked sqrt s = some s := by
    simp [eliminateChecked, forUpM, iterUpM, h0]
  have hr : readVec s.m_SystemSize s.m_F (s.m_SystemSize - 1) = none := by
    simp [readVec, h0]
  have hl : lastRowChecked s = none := by
    simp [lastRowChecked, readVec, h0]
  refine ⟨he, hr, hl, ?_⟩
  simp [SolveChecked, he, backSubstituteChecked, hl]

end CheckedMethods

/-! ## The degenerate-pivot system -/

section DegenerateLemmas

variable {K : Type} [Field K]

/-- The size of the degenerate system, its first rotation norm, its last
diagonal entry after the elimination, and the cell `X_Found [1]` that `Solve`
writes. -/
theorem degenerateSystem_facts (sqrt : K → K) :
    (degenerateSystem K).m_SystemSize = 2 ∧
      rotationNorm sqrt (stateBefore sqrt (degenerateSystem K) 0 1) 0 1 = sqrt 1 ∧
      (eliminate sqrt (degenerateSystem K)).m_A 1 1 = 0 ∧
      (Solve sqrt (degenerateSystem K)).X_Found 1 =
        (eliminate sqrt (degenerateSystem K)).m_F 1 /
          (eliminate sqrt (degenerateSystem K)).m_A 1 1 := by
  have h2 : (degenerateSystem K).m_SystemSize = 2 := rfl
  refine ⟨h2, ?_, ?_, ?_⟩
  · rw [stateBefore_start]
    simp [rotationNorm, degenerateSystem]
  · rw [(eliminate_size_two_diagonal sqrt (degenerateSystem K) rfl).2]
    simp [degenerateSystem]
  · have h := Solve_BackSubstituted sqrt (degenerateSystem K) (by rw [h2]; decide) 1
      (by decide) (by rw [h2]; decide)
    rw [h, h2]
    simp

theorem MeetsZeroDivisor_size (sqrt : K → K) (s : EquationSystem K)
    (h : MeetsZeroDivisor sqrt s) : 1 ≤ s.m_SystemSize := by
  rcases h with ⟨i, j, hi, hij, hj, _⟩ | ⟨r, hr0, hrN, _⟩ <;> omega

theorem degenerateSystem_MeetsZeroDivisor (sqrt : K → K) :
    MeetsZeroDivisor sqrt (degenerateSystem K) :=
  Or.inr ⟨1, by decide, by simp [degenerateSystem], (degenerateSystem_facts sqrt).2.2.1⟩

end DegenerateLemmas

/-! ## The random helpers -/

section RandomHelpers

/-- For a nonnegative dividend the truncated remainder is nonnegative and
smaller than the absolute value of the divisor. -/
theorem tmod_bounds (r w : Int) (hr : 0 ≤ r) :
    0 ≤ Int.tmod r w ∧ (0 < w → Int.tmod r w < w) ∧ (w < 0 → Int.tmod r w < -w) := by
  refine ⟨Int.tmod_nonneg w hr, fun h => Int.tmod_lt_of_pos r h, fun h => ?_⟩
  have := Int.tmod_lt_of_pos r (show 0 < -w by omega)
  rwa [Int.tmod_neg] at this

/-- The raw sample of `GetRandomInt` lies in `iMin .. iMax - 1`, also when the
difference `iMax - iMin` wraps around. -/
theorem rawRandomInt_bounds (rand iMin iMax : Int) (hlt : iMin < iMax) (hrand : 0 ≤ rand)
    (h1 : -2147483648 ≤ iMin) (h2 : iMax ≤ 2147483647) :
    iMin ≤ rawRandomInt rand iMin iMax ∧ rawRandomInt rand iMin iMax < iMax := by
  have hw : wrapInt32 (iMax - iMin) ≠ 0 := by
    unfold wrapInt32
    omega
  obtain ⟨b0, b1, b2⟩ := tmod_bounds rand (wrapInt32 (iMax - iMin)) hrand
  unfold rawRandomInt
  simp only
  generalize Int.tmod rand (wrapInt32 (iMax - iMin)) = d at b0 b1 b2 ⊢
  unfold wrapInt32 at b1 b2 hw ⊢
  omega

end RandomHelpers

/-! ## The twins on values agree with the methods while no norm is zero -/

theorem num_update {K : Type} (f : Int → K) (i : Int) (v : K) :
    (fun r => Value.num (Function.update f i v r)) =
      Function.update (fun r => Value.num (f r)) i (Value.num v) := by
  funext r
  by_cases h : r = i
  · subst h; simp
  · simp [Function.update_noteq h]

theorem num_setCell {K : Type} (M : Int → Int → K) (r c : Int) (v : K) :
    (fun r' c' => Value.num (setCell M r c v r' c')) =
      setCell (fun r' c' => Value.num (M r' c')) r c (Value.num v) := by
  funext r' c'
  simp only [setCell_apply]
  split_ifs <;> rfl

section ValueLemmas

variable {K : Type} [Field K]

theorem Value.num_add_num (x y : K) : Value.num x + Value.num y = Value.num (x + y) := rfl

theorem Value.num_sub_num (x y : K) : Value.num x - Value.num y = Value.num (x - y) := rfl

theorem Value.num_mul_num (x y : K) : Value.num x * Value.num y = Value.num (x * y) := rfl

theorem Value.nan_mul (v : Value K) : Value.nan * v = Value.nan := rfl

theorem Value.nan_add (v : Value K) : Value.nan + v = Value.nan := rfl

theorem Value.nan_sub (v : Value K) : Value.nan - v = Value.nan := rfl

theorem forUp_comm {σ τ : Type} (f : σ → τ) (body : Int → σ → σ) (body' : Int → τ → τ)
    (h : ∀ k t, f (body k t) = body' k (f t)) (lo hi : Int) (s : σ) :
    f (forUp body lo hi s) = forUp body' lo hi (f s) := by
  unfold forUp
  generalize (hi - lo).toNat = n
  induction n generalizing lo s with
  | zero => rfl
  | succ n ih => simp only [iterUp, ih, h]

/-- On numbers `MultiplySystem` and its twin compute the same state. -/
theorem MultiplySystemE_asValues (s : EquationSystem K) (i j : Int) (C S : K) :
    MultiplySystemE (asValues s) i j (Value.num C) (Value.num S) =
      asValues (MultiplySystem s i j C S) := by
  unfold MultiplySystemE MultiplySystem
  symm
  rw [forUp_comm asValues _ (fun k (s : EquationSystem (Value K)) =>
      let Buf_I := s.m_A i k
      let Buf_J := s.m_A j k
      let s := { s with m_A := setCell s.m_A i k (Value.num C * Buf_I + Value.num S * Buf_J) }
      { s with m_A := setCell s.m_A j k (Value.num C * Buf_J - Value.num S * Buf_I) })]
  · congr 1
    simp only [asValues, Value.num_mul_num, Value.num_add_num, Value.num_sub_num, num_update]
  · intro k t
    simp only [asValues, Value.num_mul_num, Value.num_add_num, Value.num_sub_num, num_setCell]

/-- The twin of `MultiplySystem` keeps the size and writes `m_F` before its
loop only. -/
theorem MultiplySystemE_frame (s : EquationSystem (Value K)) (i j : Int) (C S : Value K) :
    (MultiplySystemE s i j C S).m_SystemSize = s.m_SystemSize ∧
      (MultiplySystemE s i j C S).X_Generated = s.X_Generated ∧
      (MultiplySystemE s i j C S).m_F =
        Function.update (Function.update s.m_F i (C * s.m_F i + S * s.m_F j)) j
          (C * s.m_F j - S * s.m_F i) := by
  unfold MultiplySystemE forUp
  refine iterUp_preserves _ (fun (t : EquationSystem (Value K)) =>
    t.m_SystemSize = s.m_SystemSize ∧ t.X_Generated = s.X_Generated ∧
      t.m_F = Function.update (Function.update s.m_F i (C * s.m_F i + S * s.m_F j)) j
        (C * s.m_F j - S * s.m_F i)) ?_ _ _ _ ?_
  · exact fun _ _ h => h
  · exact ⟨rfl, rfl, rfl⟩

/-- On numbers `MatrixByVector` and its twin compute the same vector. -/
theorem MatrixByVectorE_asValues (s : EquationSystem K) (Matrix : Int → Int → K)
    (Vector : Int → K) :
    MatrixByVectorE (asValues s) (fun r c => Value.num (Matrix r c))
        (fun r => Value.num (Vector r)) =
      fun r => Value.num (MatrixByVector s Matrix Vector r) := by
  unfold MatrixByVectorE MatrixByVector
  symm
  refine forUp_comm (fun (temp : Int → K) r => Value.num (temp r)) _ _ ?_ _ _ _
  intro i temp
  refine (forUp_comm (fun (temp : Int → K) r => Value.num (temp r)) _
    (fun j (temp : Int → Value K) => Function.update temp i
      (temp i + Value.num (Matrix i j) * Value.num (Vector j))) ?_ _ _ _).trans ?_
  · intro j u
    simp only [num_update, Value.num_mul_num, Value.num_add_num]
  · rw [num_update]
    rfl

/-- On numbers the relation `A * X_Generated = F` of the twins is the relation
of the methods. -/
theorem ConsistentE_asValues (s : EquationSystem K) :
    ConsistentE (asValues s) ↔ IsSolution s.m_SystemSize s.m_A s.m_F s.X_Generated := by
  have hM := MatrixByVectorE_asValues s s.m_A s.X_Generated
  constructor
  · intro h r hr0 hrN
    obtain ⟨v, h1, h2⟩ := h r hr0 hrN
    have h2' := (congrFun hM r).symm.trans h2
    rw [← MatrixByVector_apply s _ _ r hr0 hrN]
    exact (Value.num.inj h2').trans (Value.num.inj h1).symm
  · intro h r hr0 hrN
    refine ⟨s.m_F r, rfl, ?_⟩
    refine (congrFun hM r).trans ?_
    rw [MatrixByVector_apply s _ _ r hr0 hrN]
    exact congrArg Value.num (h r hr0 hrN)

end ValueLemmas

section ExtendedLemmas

variable {K : Type} [Field K] [DecidableEq K]

theorem Value.num_div_num (x y : K) (hy : y ≠ 0) :
    Value.num x / Value.num y = Value.num (x / y) := by
  show Value.div (Value.num x) (Value.num y) = _
  simp [Value.div, hy]

theorem Value.num_div_zero (x : K) : Value.num x / Value.num (0 : K) = Value.nan := by
  show Value.div (Value.num x) (Value.num 0) = _
  simp [Value.div]

/-- With a nonzero norm `GetRotationMatrix` and its twin compute the same
coefficients. -/
theorem GetRotationMatrixE_asValues (sqrt : K → K) (s : EquationSystem K) (i j : Int)
    (hn : rotationNorm sqrt s i j ≠ 0) :
    GetRotationMatrixE sqrt (asValues s) i j =
      (Value.num (GetRotationMatrix sqrt s i j).1, Value.num (GetRotationMatrix sqrt s i j).2) := by
  unfold rotationNorm at hn
  simp only [GetRotationMatrixE, GetRotationMatrix, asValues, Value.num_mul_num,
    Value.num_add_num, Value.sqrt, Value.num_div_num _ _ hn]

/-- With a zero norm the twin of `GetRotationMatrix` has no number to return. -/
theorem GetRotationMatrixE_zero_norm (sqrt : K → K) (s : EquationSystem K) (i j : Int)
    (hn : rotationNorm sqrt s i j = 0) :
    GetRotationMatrixE sqrt (asValues s) i j = (Value.nan, Value.nan) := by
  unfold rotationNorm at hn
  simp only [GetRotationMatrixE, asValues, Value.num_mul_num, Value.num_add_num, Value.sqrt, hn,
    Value.num_div_zero]

theorem rotateStepE_asValues (sqrt : K → K) (i j : Int) (s : EquationSystem K)
    (hn : rotationNorm sqrt s i j ≠ 0) :
    rotateStepE sqrt i j (asValues s) = asValues (rotateStep sqrt i j s) := by
  unfold rotateStepE rotateStep
  simp only [GetRotationMatrixE_asValues sqrt s i j hn]
  exact MultiplySystemE_asValues s i j _ _

theorem rotateStepE_size (sqrt : K → K) (i j : Int) (s : EquationSystem (Value K)) :
    (rotateStepE sqrt i j s).m_SystemSize = s.m_SystemSize :=
  (MultiplySystemE_frame s i j _ _).1

theorem columnLoopE_size (sqrt : K → K) (i jEnd : Int) (s : EquationSystem (Value K)) :
    (columnLoopE sqrt i jEnd s).m_SystemSize = s.m_SystemSize := by
  unfold columnLoopE forUp
  exact iterUp_preserves _ (fun (t : EquationSystem (Value K)) =>
    t.m_SystemSize = s.m_SystemSize)
    (fun k t h => (rotateStepE_size sqrt i k t).trans h) _ _ _ rfl

theorem eliminationLoopE_size (sqrt : K → K) (iEnd : Int) (s : EquationSystem (Value K)) :
    (eliminationLoopE sqrt iEnd s).m_SystemSize = s.m_SystemSize := by
  unfold eliminationLoopE forUp
  exact iterUp_preserves _ (fun (t : EquationSystem (Value K)) =>
    t.m_SystemSize = s.m_SystemSize)
    (fun k t h => (columnLoopE_size sqrt k _ t).trans h) _ _ _ rfl

/-- While no norm is zero the twin loops compute, on numbers, the states that
the elimination loops of `Solve` compute. -/
theorem stateBeforeE_asValues (sqrt : K → K) (s : EquationSystem K)
    (hnorm : NormsNonzero sqrt s) (i j : Int) (hi : 0 ≤ i) (hij : i < j)
    (hj : j ≤ s.m_SystemSize) :
    columnLoopE sqrt i j (eliminationLoopE sqrt i (asValues s)) =
      asValues (stateBefore sqrt s i j) := by
  refine stateBefore_induction sqrt s
    (fun i j t => columnLoopE sqrt i j (eliminationLoopE sqrt i (asValues s)) = asValues t)
    ?_ ?_ ?_ i j hi hij hj
  · show columnLoopE sqrt 0 1 (eliminationLoopE sqrt 0 (asValues s)) = asValues s
    unfold columnLoopE eliminationLoopE
    rw [forUp_of_le _ (by decide), forUp_of_le _ (le_refl 0)]
  · intro i j hi hij hj ih
    show columnLoopE sqrt i (j + 1) (eliminationLoopE sqrt i (asValues s)) = _
    unfold columnLoopE at ih ⊢
    rw [forUp_succ_last _ (by omega), ih]
    exact rotateStepE_asValues sqrt i j _ (hnorm i j hi hij hj)
  · intro i t hi hiN ih
    show columnLoopE sqrt (i + 1) (i + 1 + 1) (eliminationLoopE sqrt (i + 1) (asValues s)) = _
    rw [← ih]
    have e : eliminationLoopE sqrt (i + 1) (asValues s) =
        columnLoopE sqrt i s.m_SystemSize (eliminationLoopE sqrt i (asValues s)) := by
      have hs := eliminationLoopE_size sqrt i (asValues s)
      unfold eliminationLoopE at hs ⊢
      rw [forUp_succ_last _ hi, hs]
      rfl
    rw [e]
    unfold columnLoopE
    rw [forUp_of_le _ (le_refl _)]

theorem eliminateE_asValues (sqrt : K → K) (s : EquationSystem K)
    (hnorm : NormsNonzero sqrt s) :
    eliminateE sqrt (asValues s) = asValues (eliminate sqrt s) := by
  by_cases hN : 1 ≤ s.m_SystemSize
  swap
  · have e : eliminate sqrt s = s := forUp_of_le _ (by omega) s
    rw [e]
    have hle : (asValues s).m_SystemSize - 1 ≤ 0 := by
      show s.m_SystemSize - 1 ≤ 0
      omega
    exact forUp_of_le _ hle _
  have h := stateBeforeE_asValues sqrt s hnorm (s.m_SystemSize - 1) s.m_SystemSize (by omega)
    (by omega) (le_refl _)
  rw [← eliminate_eq_stateBefore] at h
  rw [← h]
  unfold eliminateE columnLoopE
  rw [forUp_of_le _ (by omega)]
  rfl

/-- The system `[[0, 1], [0, 1]] * [1, 1] = [1, 1]`: the relation holds before
the elimination, the norm of the first rotation is zero, the coefficients are
no numbers, the elimination is that one rotation, and after it the right-hand
side holds no number, so that the relation fails. -/
theorem zeroColumnSystem_facts (sqrt : K → K) (h0 : sqrt 0 = 0) :
    ConsistentE (asValues (zeroColumnSystem K)) ∧
      rotationNorm sqrt (stateBefore sqrt (zeroColumnSystem K) 0 1) 0 1 = 0 ∧
      GetRotationMatrixE sqrt (asValues (zeroColumnSystem K)) 0 1 =
        (Value.nan, Value.nan) ∧
      eliminateE sqrt (asValues (zeroColumnSystem K)) =
        rotateStepE sqrt 0 1 (asValues (zeroColumnSystem K)) ∧
      (eliminateE sqrt (asValues (zeroColumnSystem K))).m_F 0 = Value.nan ∧
      ¬ ConsistentE (eliminateE sqrt (asValues (zeroColumnSystem K))) := by
  have hn : rotationNorm sqrt (zeroColumnSystem K) 0 1 = 0 := by
    simp [rotationNorm, zeroColumnSystem, h0]
  have hg := GetRotationMatrixE_zero_norm sqrt (zeroColumnSystem K) 0 1 hn
  have he : eliminateE sqrt (asValues (zeroColumnSystem K)) =
      rotateStepE sqrt 0 1 (asValues (zeroColumnSystem K)) := by
    simp [eliminateE, eliminationLoopE, columnLoopE, forUp, iterUp, asValues, zeroColumnSystem]
  have hF : (eliminateE sqrt (asValues (zeroColumnSystem K))).m_F 0 = Value.nan := by
    rw [he]
    unfold rotateStepE
    simp only [hg, (MultiplySystemE_frame _ 0 1 _ _).2.2]
    rw [Function.update_noteq (by decide), Function.update_same]
    rfl
  refine ⟨?_, ?_, hg, he, hF, ?_⟩
  · rw [ConsistentE_asValues]
    intro r hr0 hrN
    have hr : r = 0 ∨ r = 1 := by
      have : r < 2 := hrN
      omega
    have e : (zeroColumnSystem K).m_SystemSize = 2 := rfl
    rw [rowDot, e, sum_Ico_zero_two]
    rcases hr with rfl | rfl <;> simp [zeroColumnSystem]
  · rw [stateBefore_start]
    exact hn
  · intro h
    have e : (eliminateE sqrt (asValues (zeroColumnSystem K))).m_SystemSize = 2 :=
      eliminationLoopE_size sqrt _ _
    obtain ⟨v, hv, _⟩ := h 0 (le_refl 0) (by rw [e]; decide)
    rw [hF] at hv
    exact Value.noConfusion hv

end ExtendedLemmas

/-! ## The properties of the specification -/

section Claims

variable {K : Type} [Field K]

/-- C1 (agreement): for a system of size `N ≥ 1` built by the constructor from
any matrix `A` and vector `X`, in exact arithmetic with any `sqrt` such that
`sqrt z * sqrt z = z`, if every rotation norm met during the elimination is
nonzero and the entry `A [N-1] [N-1]` after the elimination is nonzero, then
`Solve` ends with `X_Found = X_Generated = X`, entry by entry. -/
theorem Solve_agreement (sqrt : K → K) (hsqrt : ∀ z, sqrt z * sqrt z = z) (N : Int)
    (hN : 1 ≤ N) (A : Int → Int → K) (X : Int → K) (s : EquationSystem K)
    (hs : EquationSystem.construct N X A = some s) (hnorm : NormsNonzero sqrt s)
    (hlast : (eliminate sqrt s).m_A (N - 1) (N - 1) ≠ 0) (r : Int) (hr0 : 0 ≤ r)
    (hrN : r < N) :
    (Solve sqrt s).X_Found r = (Solve sqrt s).X_Generated r ∧
      (Solve sqrt s).X_Generated r = X r := by
  obtain ⟨hsz, hX, _, _, hsol⟩ := construct_spec N X A s hs
  subst hsz
  have hdiag : ∀ r, 0 ≤ r → r < s.m_SystemSize → (eliminate sqrt s).m_A r r ≠ 0 := by
    intro r hr0 hrN
    by_cases e : r = s.m_SystemSize - 1
    · rw [e]; exact hlast
    · exact eliminate_pivots sqrt hsqrt s hN hnorm r hr0 (by omega)
  rw [Solve_X_Generated sqrt s hN]
  exact ⟨Solve_finds sqrt s hN _ hsol hdiag r hr0 hrN, hX r hr0 hrN⟩

/-- Instance of C1 on the constructed system `[[3, 2], [4, 1]] * [7, -2]` over `ℂ`. -/
theorem Solve_agreement_witness :
    (Solve (fun z : ℂ => z ^ (((2 : ℕ) : ℂ)⁻¹)) (sampleConstructed ℂ)).X_Found 0 =
      sampleX ℂ 0 := by
  obtain ⟨h2, h00, h01, h10, h11⟩ := generate_sample ℂ
  have hn : (3 * 3 + 4 * 4 : ℂ) ^ (((2 : ℕ) : ℂ)⁻¹) ≠ 0 := complex_sqrt_ne_zero (by norm_num)
  have hnorm : NormsNonzero (fun z : ℂ => z ^ (((2 : ℕ) : ℂ)⁻¹)) (sampleConstructed ℂ) := by
    apply NormsNonzero_size_two _ _ h2
    rw [h00, h10]
    exact hn
  have hlast : (eliminate (fun z : ℂ => z ^ (((2 : ℕ) : ℂ)⁻¹)) (sampleConstructed ℂ)).m_A
      (2 - 1) (2 - 1) ≠ 0 := by
    have e : (2 : Int) - 1 = 1 := by norm_num
    rw [e, (eliminate_size_two_diagonal _ _ h2).2, h00, h01, h10, h11]
    exact div_ne_zero (by norm_num) hn
  have h := Solve_agreement (fun z : ℂ => z ^ (((2 : ℕ) : ℂ)⁻¹)) complex_sqrt_mul_self 2
    (by norm_num) (sampleA ℂ) (sampleX ℂ) _ (construct_sample ℂ) hnorm hlast 0 (by norm_num)
    (by norm_num)
  exact h.1.trans h.2

/-- C2 (reconstruction): for every system of size `N ≥ 1` (any matrix, any
right-hand side), in exact arithmetic with `sqrt z * sqrt z = z`, if every
rotation norm met during the elimination is nonzero and every diagonal entry
after the elimination is nonzero, then the `X_Found` computed by `Solve`
satisfies `A_original * X_Found = F_original`. -/
theorem Solve_reconstruction (sqrt : K → K) (hsqrt : ∀ z, sqrt z * sqrt z = z)
    (s : EquationSystem K) (hN : 1 ≤ s.m_SystemSize) (hnorm : NormsNonzero sqrt s)
    (hdiag : ∀ r, 0 ≤ r → r < s.m_SystemSize → (eliminate sqrt s).m_A r r ≠ 0) (r : Int)
    (hr0 : 0 ≤ r) (hrN : r < s.m_SystemSize) :
    ∑ c ∈ Finset.Ico 0 s.m_SystemSize, s.m_A r c * (Solve sqrt s).X_Found c = s.m_F r := by
  have h1 := IsSolution_of_BackSubstituted _ _ _ (eliminate_upperTriangular sqrt s hN) hdiag _
    (Solve_BackSubstituted sqrt s hN)
  exact (eliminate_IsSolution_iff sqrt hsqrt s hN hnorm _).mp h1 r hr0 hrN

/-- Instance of C2 on the system `[[3, 2], [4, 1]] * x = [17, 26]` over `ℂ`, row `0`. -/
theorem Solve_reconstruction_witness :
    ∑ c ∈ Finset.Ico 0 (sampleSystem ℂ).m_SystemSize,
        (sampleSystem ℂ).m_A 0 c *
          (Solve (fun z : ℂ => z ^ (((2 : ℕ) : ℂ)⁻¹)) (sampleSystem ℂ)).X_Found c =
      (sampleSystem ℂ).m_F 0 := by
  have h2 : (sampleSystem ℂ).m_SystemSize = 2 := rfl
  have hn : (fun z : ℂ => z ^ (((2 : ℕ) : ℂ)⁻¹))
      ((sampleSystem ℂ).m_A 0 0 * (sampleSystem ℂ).m_A 0 0 +
        (sampleSystem ℂ).m_A 1 0 * (sampleSystem ℂ).m_A 1 0) ≠ 0 :=
    complex_sqrt_ne_zero (by norm_num [sampleSystem, sampleA])
  refine Solve_reconstruction (fun z : ℂ => z ^ (((2 : ℕ) : ℂ)⁻¹)) complex_sqrt_mul_self
    (sampleSystem ℂ) (by rw [h2]; norm_num) (NormsNonzero_size_two _ _ h2 hn) ?_ 0
    (le_refl 0) (by rw [h2]; norm_num)
  intro r hr0 hrN
  obtain ⟨d0, d1⟩ := eliminate_size_two_diagonal (fun z : ℂ => z ^ (((2 : ℕ) : ℂ)⁻¹))
    (sampleSystem ℂ) h2
  have hr : r = 0 ∨ r = 1 := by
    have : r < 2 := hrN
    omega
  rcases hr with rfl | rfl
  · rw [d0]
    exact div_ne_zero (by norm_num [sampleSystem, sampleA]) hn
  · rw [d1]
    exact div_ne_zero (by norm_num [sampleSystem, sampleA]) hn

/-- C3 (triangularization): for every system of size `N ≥ 1`, if every rotation
norm met during the elimination loop of `Solve` is nonzero, then after the loop
`A [r] [c] = 0` for all `0 ≤ c < r < N`. -/
theorem eliminate_triangular (sqrt : K → K) (s : EquationSystem K) (hN : 1 ≤ s.m_SystemSize)
    (_hnorm : NormsNonzero sqrt s) (r c : Int) (hc0 : 0 ≤ c) (hcr : c < r)
    (hrN : r < s.m_SystemSize) : (eliminate sqrt s).m_A r c = 0 :=
  eliminate_upperTriangular sqrt s hN r c hc0 hcr hrN

/-- Instance of C3 on the system `[[3, 2], [4, 1]]` over `ℚ`: the cell `[1] [0]`. -/
theorem eliminate_triangular_witness :
    (eliminate sampleSqrt (sampleSystem ℚ)).m_A 1 0 = 0 :=
  eliminate_triangular sampleSqrt (sampleSystem ℚ) (by decide)
    (NormsNonzero_size_two _ _ rfl sampleSqrt_norm_ne_zero) 1 0 (by decide) (by decide)
    (by decide)

/-- C4 (single-step annihilation): for indices `0 ≤ i < j < N` with a nonzero
rotation norm, `GetRotationMatrix (C, S, i, j)` followed by
`MultiplySystem (i, j, C, S)` leaves `A [j] [i]` equal to `0`. -/
theorem rotation_annihilates_target (sqrt : K → K) (s : EquationSystem K) (i j : Int)
    (hi : 0 ≤ i) (hij : i < j) (hj : j < s.m_SystemSize)
    (_hn : sqrt (s.m_A i i * s.m_A i i + s.m_A j i * s.m_A j i) ≠ 0) :
    (MultiplySystem s i j (GetRotationMatrix sqrt s i j).1
      (GetRotationMatrix sqrt s i j).2).m_A j i = 0 :=
  rotateStep_annihilates sqrt i j (by omega) s ⟨hi, by omega⟩

/-- Instance of C4 on the system `[[3, 2], [4, 1]]` over `ℚ`, rotation `(0, 1)`. -/
theorem rotation_annihilates_target_witness :
    (MultiplySystem (sampleSystem ℚ) 0 1 (GetRotationMatrix sampleSqrt (sampleSystem ℚ) 0 1).1
      (GetRotationMatrix sampleSqrt (sampleSystem ℚ) 0 1).2).m_A 1 0 = 0 :=
  rotation_annihilates_target sampleSqrt (sampleSystem ℚ) 0 1 (by decide) (by decide)
    (by decide) sampleSqrt_norm_ne_zero

/-- C5 (solution-set preservation by one rotation): for indices `0 ≤ i < j < N`
with a nonzero rotation norm and `sqrt z * sqrt z = z`, the coefficients satisfy
`C * C + S * S = 1`, and a vector solves the system before the rotation if and
only if it solves the system after `GetRotationMatrix` and `MultiplySystem`. -/
theorem rotation_preserves_solutions (sqrt : K → K) (hsqrt : ∀ z, sqrt z * sqrt z = z)
    (s : EquationSystem K) (i j : Int) (hi : 0 ≤ i) (hij : i < j) (hj : j < s.m_SystemSize)
    (hn : sqrt (s.m_A i i * s.m_A i i + s.m_A j i * s.m_A j i) ≠ 0) (x : Int → K) :
    (GetRotationMatrix sqrt s i j).1 * (GetRotationMatrix sqrt s i j).1 +
        (GetRotationMatrix sqrt s i j).2 * (GetRotationMatrix sqrt s i j).2 = 1 ∧
      ((∀ r, 0 ≤ r → r < s.m_SystemSize →
          ∑ c ∈ Finset.Ico 0 s.m_SystemSize, s.m_A r c * x c = s.m_F r) ↔
        ∀ r, 0 ≤ r → r < s.m_SystemSize →
          ∑ c ∈ Finset.Ico 0 s.m_SystemSize,
              (MultiplySystem s i j (GetRotationMatrix sqrt s i j).1
                (GetRotationMatrix sqrt s i j).2).m_A r c * x c =
            (MultiplySystem s i j (GetRotationMatrix sqrt s i j).1
              (GetRotationMatrix sqrt s i j).2).m_F r) := by
  have hu := GetRotationMatrix_unit sqrt hsqrt s i j hn
  refine ⟨hu, ?_, ?_⟩
  · exact IsSolution_MultiplySystem s i j (by omega) ⟨hi, by omega⟩ ⟨by omega, hj⟩ _ _ x
  · exact IsSolution_of_MultiplySystem s i j (by omega) ⟨hi, by omega⟩ ⟨by omega, hj⟩ _ _ hu x

/-- Instance of C5 on the system `[[3, 2], [4, 1]]` over `ℂ`, rotation `(0, 1)`. -/
theorem rotation_preserves_solutions_witness :
    (GetRotationMatrix (fun z : ℂ => z ^ (((2 : ℕ) : ℂ)⁻¹)) (sampleSystem ℂ) 0 1).1 *
        (GetRotationMatrix (fun z : ℂ => z ^ (((2 : ℕ) : ℂ)⁻¹)) (sampleSystem ℂ) 0 1).1 +
      (GetRotationMatrix (fun z : ℂ => z ^ (((2 : ℕ) : ℂ)⁻¹)) (sampleSystem ℂ) 0 1).2 *
        (GetRotationMatrix (fun z : ℂ => z ^ (((2 : ℕ) : ℂ)⁻¹)) (sampleSystem ℂ) 0 1).2 = 1 :=
  (rotation_preserves_solutions (fun z : ℂ => z ^ (((2 : ℕ) : ℂ)⁻¹)) complex_sqrt_mul_self
    (sampleSystem ℂ) 0 1 (le_refl 0) (by norm_num)
    (by rw [show (sampleSystem ℂ).m_SystemSize = 2 from rfl]; norm_num)
    (complex_sqrt_ne_zero (by norm_num [sampleSystem, sampleA])) (sampleX ℂ)).1

/-- C6, as stated, fails: no assumption on the norms cannot be made. For
`A = [[0, 1], [0, 1]]`, `X_Generated = [1, 1]` and `F = A * X_Generated = [1, 1]`
over `ℂ` with the principal square root, the relation `A * X_Generated = F`
holds before `Solve`; the norm of the first rotation `(0, 1)` is
`sqrt (0 * 0 + 0 * 0) = 0`, so that `GetRotationMatrix` yields the quotients
`0 / 0` for `C` and `S`, which are no numbers; after the rotation, which is the
whole elimination, `F [0] = C * F [0] + S * F [1]` is no number and the relation
fails. -/
theorem elimination_zero_norm_counterexample :
    ConsistentE (asValues (zeroColumnSystem ℂ)) ∧
      rotationNorm (fun z : ℂ => z ^ (((2 : ℕ) : ℂ)⁻¹))
        (stateBefore (fun z : ℂ => z ^ (((2 : ℕ) : ℂ)⁻¹)) (zeroColumnSystem ℂ) 0 1) 0 1 = 0 ∧
      GetRotationMatrixE (fun z : ℂ => z ^ (((2 : ℕ) : ℂ)⁻¹)) (asValues (zeroColumnSystem ℂ))
          0 1 = (Value.nan, Value.nan) ∧
      eliminateE (fun z : ℂ => z ^ (((2 : ℕ) : ℂ)⁻¹)) (asValues (zeroColumnSystem ℂ)) =
        rotateStepE (fun z : ℂ => z ^ (((2 : ℕ) : ℂ)⁻¹)) 0 1 (asValues (zeroColumnSystem ℂ)) ∧
      (eliminateE (fun z : ℂ => z ^ (((2 : ℕ) : ℂ)⁻¹)) (asValues (zeroColumnSystem ℂ))).m_F 0 =
        Value.nan ∧
      ¬ ConsistentE (eliminateE (fun z : ℂ => z ^ (((2 : ℕ) : ℂ)⁻¹))
        (asValues (zeroColumnSystem ℂ))) :=
  zeroColumnSystem_facts (fun z : ℂ => z ^ (((2 : ℕ) : ℂ)⁻¹)) (Complex.zero_cpow (by norm_num))

/-- C6, amended (consistency invariant of the elimination, with nonzero norms):
if `A * X_Generated = F` holds in `s` and every rotation norm met during the
elimination is nonzero then (a) after each rotation `(i, j)` of `Solve`, the
state computed with quotients by zero that are no numbers is the state of
numbers computed by `rotateStep`, and the relation holds in it; (b) the same
after the whole elimination loop; (c) one call of `MultiplySystem (i, j, C, S)`
keeps the relation for whatever numbers `C` and `S`. -/
theorem elimination_consistent_of_norms [DecidableEq K] (sqrt : K → K) (s : EquationSystem K)
    (hF : IsSolution s.m_SystemSize s.m_A s.m_F s.X_Generated)
    (hnorm : NormsNonzero sqrt s) :
    (∀ i j : Int, 0 ≤ i → i < j → j < s.m_SystemSize →
        rotateStepE sqrt i j (columnLoopE sqrt i j (eliminationLoopE sqrt i (asValues s))) =
            asValues (rotateStep sqrt i j (stateBefore sqrt s i j)) ∧
          ConsistentE (rotateStepE sqrt i j
            (columnLoopE sqrt i j (eliminationLoopE sqrt i (asValues s)))) ∧
          IsSolution s.m_SystemSize (rotateStep sqrt i j (stateBefore sqrt s i j)).m_A
            (rotateStep sqrt i j (stateBefore sqrt s i j)).m_F
            (rotateStep sqrt i j (stateBefore sqrt s i j)).X_Generated) ∧
      eliminateE sqrt (asValues s) = asValues (eliminate sqrt s) ∧
      ConsistentE (eliminateE sqrt (asValues s)) ∧
      IsSolution s.m_SystemSize (eliminate sqrt s).m_A (eliminate sqrt s).m_F
        (eliminate sqrt s).X_Generated ∧
      ∀ (t : EquationSystem K) (i j : Int) (C S : K), 0 ≤ i → i < j → j < t.m_SystemSize →
        IsSolution t.m_SystemSize t.m_A t.m_F t.X_Generated →
        MultiplySystemE (asValues t) i j (Value.num C) (Value.num S) =
            asValues (MultiplySystem t i j C S) ∧
          ConsistentE (MultiplySystemE (asValues t) i j (Value.num C) (Value.num S)) := by
  have hel : eliminateE sqrt (asValues s) = asValues (eliminate sqrt s) :=
    eliminateE_asValues sqrt s hnorm
  have hes : IsSolution s.m_SystemSize (eliminate sqrt s).m_A (eliminate sqrt s).m_F
      (eliminate sqrt s).X_Generated := by
    rw [(eliminate_frame sqrt s).2]
    by_cases hN : 1 ≤ s.m_SystemSize
    · exact eliminate_IsSolution sqrt s hN _ hF
    · intro r hr0 hrN
      omega
  refine ⟨fun i j hi hij hj => ?_, hel, ?_, hes, ?_⟩
  · have hfr := stateBefore_frame sqrt s i (j + 1)
    have hst := stateBefore_IsSolution sqrt s _ hF i (j + 1) hi (by omega) (by omega)
    rw [← hfr.2, stateBefore_succ sqrt s hij] at hst
    rw [stateBefore_succ sqrt s hij] at hfr
    have e := stateBeforeE_asValues sqrt s hnorm i j hi hij (by omega)
    rw [e, rotateStepE_asValues sqrt i j _ (hnorm i j hi hij hj)]
    refine ⟨rfl, ?_, hst⟩
    rw [ConsistentE_asValues, hfr.1]
    exact hst
  · rw [hel, ConsistentE_asValues, (eliminate_frame sqrt s).1]
    exact hes
  · intro t i j C S hi hij hj ht
    rw [MultiplySystemE_asValues]
    refine ⟨rfl, ?_⟩
    rw [ConsistentE_asValues, MultiplySystem_size t i j (by omega),
      MultiplySystem_X_Generated t i j (by omega)]
    exact IsSolution_MultiplySystem t i j (by omega) ⟨hi, by omega⟩ ⟨by omega, hj⟩ _ _ _ ht

/-- Instance of the amended C6 on the system `[[3, 2], [4, 1]] * [7, -2] =
[17, 26]` over `ℚ`, whose only rotation has the norm `5`: the elimination meets
no quotient by zero and the relation holds after it. -/
theorem elimination_consistent_of_norms_witness :
    NormsNonzero sampleSqrt (sampleSystem ℚ) ∧
      eliminateE sampleSqrt (asValues (sampleSystem ℚ)) =
        asValues (eliminate sampleSqrt (sampleSystem ℚ)) ∧
      ConsistentE (eliminateE sampleSqrt (asValues (sampleSystem ℚ))) :=
  ⟨NormsNonzero_size_two _ _ rfl sampleSqrt_norm_ne_zero,
    (elimination_consistent_of_norms sampleSqrt (sampleSystem ℚ) (sampleSystem_IsSolution ℚ)
      (NormsNonzero_size_two _ _ rfl sampleSqrt_norm_ne_zero)).2.1,
    (elimination_consistent_of_norms sampleSqrt (sampleSystem ℚ) (sampleSystem_IsSolution ℚ)
      (NormsNonzero_size_two _ _ rfl sampleSqrt_norm_ne_zero)).2.2.1⟩

/-- C7 (back-substitution): for a system of size `N ≥ 1` with nonzero diagonal,
the second phase of `Solve` sets `X_Found [N-1] = F [N-1] / A [N-1] [N-1]` and
`X_Found [i] = (F [i] - sum_{j=i+1}^{N-1} X_Found [j] * A [i] [j]) / A [i] [i]`
for `0 ≤ i ≤ N - 2`, so that `sum_{j=i}^{N-1} A [i] [j] * X_Found [j] = F [i]`
in every row; and the result is the same for any system that differs only
below the diagonal (or in the previous contents of `X_Found`). -/
theorem backSubstitute_solves (s : EquationSystem K) (hN : 1 ≤ s.m_SystemSize)
    (hdiag : ∀ i, 0 ≤ i → i < s.m_SystemSize → s.m_A i i ≠ 0) :
    (backSubstitute s).X_Found (s.m_SystemSize - 1) =
        s.m_F (s.m_SystemSize - 1) / s.m_A (s.m_SystemSize - 1) (s.m_SystemSize - 1) ∧
      (∀ i, 0 ≤ i → i ≤ s.m_SystemSize - 2 →
        (backSubstitute s).X_Found i =
          (s.m_F i - ∑ j ∈ Finset.Ico (i + 1) s.m_SystemSize,
            (backSubstitute s).X_Found j * s.m_A i j) / s.m_A i i) ∧
      (∀ i, 0 ≤ i → i < s.m_SystemSize →
        ∑ j ∈ Finset.Ico i s.m_SystemSize, s.m_A i j * (backSubstitute s).X_Found j =
          s.m_F i) ∧
      ∀ s' : EquationSystem K, s'.m_SystemSize = s.m_SystemSize →
        (∀ i, 0 ≤ i → i < s.m_SystemSize → s'.m_F i = s.m_F i) →
        (∀ i j, 0 ≤ i → i ≤ j → j < s.m_SystemSize → s'.m_A i j = s.m_A i j) →
        ∀ i, 0 ≤ i → i < s.m_SystemSize →
          (backSubstitute s').X_Found i = (backSubstitute s).X_Found i := by
  have hb := (backSubstitute_spec s hN).2.2.2.2
  refine ⟨?_, fun i hi0 hi => hb i hi0 (by omega), fun i hi0 hiN => ?_, ?_⟩
  · have h := hb (s.m_SystemSize - 1) (by omega) (by omega)
    rw [h]
    have e : s.m_SystemSize - 1 + 1 = s.m_SystemSize := by ring
    rw [e, Finset.Ico_self, Finset.sum_empty, sub_zero]
  · have h := hb i hi0 hiN
    rw [eq_div_iff (hdiag i hi0 hiN)] at h
    rw [sum_Ico_succ_left_int _ hiN]
    have e : ∑ c ∈ Finset.Ico (i + 1) s.m_SystemSize, (backSubstitute s).X_Found c * s.m_A i c =
        ∑ c ∈ Finset.Ico (i + 1) s.m_SystemSize, s.m_A i c * (backSubstitute s).X_Found c :=
      Finset.sum_congr rfl fun c _ => mul_comm _ _
    rw [e] at h
    linear_combination h
  · intro s' hsz hF' hA' i hi0 hiN
    have hb' := (backSubstitute_spec s' (by rw [hsz]; exact hN)).2.2.2.2
    rw [hsz] at hb'
    exact (BackSubstituted_unique s.m_SystemSize _ _ _ _ hA' hF' _ _ hb hb' i hi0 hiN).symm

/-- Instance of C7 on the system `[[3, 2], [4, 1]] * x = [17, 26]` over `ℚ`, whose
diagonal is nonzero: the last cell of `X_Found`. -/
theorem backSubstitute_solves_witness :
    (backSubstitute (sampleSystem ℚ)).X_Found ((sampleSystem ℚ).m_SystemSize - 1) =
      (sampleSystem ℚ).m_F ((sampleSystem ℚ).m_SystemSize - 1) /
        (sampleSystem ℚ).m_A ((sampleSystem ℚ).m_SystemSize - 1)
          ((sampleSystem ℚ).m_SystemSize - 1) := by
  refine (backSubstitute_solves (sampleSystem ℚ) (by decide) ?_).1
  intro i hi0 hiN
  have hr : i = 0 ∨ i = 1 := by
    have : i < 2 := hiN
    omega
  rcases hr with rfl | rfl <;> norm_num [sampleSystem, sampleA]

/-- C8 (`MatrixByVector` is the standard product): in a system `t` of size `N`,
the vector returned for any `Matrix` and `Vector` has
`sum_{j=0}^{N-1} Matrix [i] [j] * Vector [j]` in each cell `0 ≤ i < N`; and a
system `s` built by the constructor has the size asked for, holds the sampled
matrix and vector, and stores `m_F = MatrixByVector (m_A, X_Generated)`, that
is `F [i] = sum_j A [i] [j] * X_Generated [j]`. -/
theorem MatrixByVector_standard_product (t : EquationSystem K) (Matrix : Int → Int → K)
    (Vector : Int → K) (Size : Int) (randX : Int → K) (randA : Int → Int → K)
    (s : EquationSystem K) (hs : EquationSystem.construct Size randX randA = some s) :
    (∀ i, 0 ≤ i → i < t.m_SystemSize →
        MatrixByVector t Matrix Vector i =
          ∑ j ∈ Finset.Ico 0 t.m_SystemSize, Matrix i j * Vector j) ∧
      s.m_SystemSize = Size ∧
      (∀ i, 0 ≤ i → i < Size → s.X_Generated i = randX i) ∧
      (∀ i j, 0 ≤ i → i < Size → 0 ≤ j → j < Size → s.m_A i j = randA i j) ∧
      s.m_F = MatrixByVector s s.m_A s.X_Generated ∧
      ∀ i, 0 ≤ i → i < Size → s.m_F i = ∑ j ∈ Finset.Ico 0 Size, randA i j * randX j := by
  obtain ⟨h1, h2, h3, h4, h5⟩ := construct_spec Size randX randA s hs
  refine ⟨fun i hi0 hiN => MatrixByVector_apply t Matrix Vector i hi0 hiN, h1, h2, h3, h4,
    fun i hi0 hiN => ?_⟩
  rw [← h5 i hi0 hiN]
  apply Finset.sum_congr rfl
  intro j hj
  rw [Finset.mem_Ico] at hj
  rw [h3 i j hi0 hiN hj.1 hj.2, h2 j hj.1 hj.2]

/-- Instance of C8: the first cell of the product `[[3, 2], [4, 1]] * [7, -2]`
over `ℚ`, for the constructed sample system. -/
theorem MatrixByVector_standard_product_witness :
    MatrixByVector (sampleSystem ℚ) (sampleA ℚ) (sampleX ℚ) 0 =
      ∑ j ∈ Finset.Ico 0 (sampleSystem ℚ).m_SystemSize, sampleA ℚ 0 j * sampleX ℚ j :=
  (MatrixByVector_standard_product (sampleSystem ℚ) (sampleA ℚ) (sampleX ℚ) 2 (sampleX ℚ)
    (sampleA ℚ) (sampleConstructed ℚ) (construct_sample ℚ)).1 0 (by decide) (by decide)

/-- C9 (known example): for `A = [[2, 0], [1, 1]]` and `X_Generated = [1, 1]`
the method `MatrixByVector` returns `[2, 2]`, which the constructor stores as
`F`, and `Solve`, in exact arithmetic of characteristic zero with
`sqrt 5 * sqrt 5 = 5`, finds `X_Found = [1, 1]`. -/
theorem known_example [CharZero K] (sqrt : K → K) (h5 : sqrt 5 * sqrt 5 = 5)
    (s : EquationSystem K) (hs : EquationSystem.construct 2 (knownX K) (knownA K) = some s) :
    MatrixByVector s (knownA K) (knownX K) 0 = 2 ∧
      MatrixByVector s (knownA K) (knownX K) 1 = 2 ∧ s.m_F 0 = 2 ∧ s.m_F 1 = 2 ∧
      (Solve sqrt s).X_Found 0 = 1 ∧ (Solve sqrt s).X_Found 1 = 1 := by
  obtain ⟨h1, h2, h3, _, h5'⟩ := construct_spec 2 (knownX K) (knownA K) s hs
  have a00 : s.m_A 0 0 = 2 := by rw [h3 0 0 (by simp) (by simp) (by simp) (by simp)]; simp [knownA]
  have a01 : s.m_A 0 1 = 0 := by rw [h3 0 1 (by simp) (by simp) (by simp) (by simp)]; simp [knownA]
  have a10 : s.m_A 1 0 = 1 := by rw [h3 1 0 (by simp) (by simp) (by simp) (by simp)]; simp [knownA]
  have a11 : s.m_A 1 1 = 1 := by rw [h3 1 1 (by simp) (by simp) (by simp) (by simp)]; simp [knownA]
  have x0 : s.X_Generated 0 = 1 := by rw [h2 0 (by simp) (by simp)]; simp [knownX]
  have x1 : s.X_Generated 1 = 1 := by rw [h2 1 (by simp) (by simp)]; simp [knownX]
  have hn : sqrt (s.m_A 0 0 * s.m_A 0 0 + s.m_A 1 0 * s.m_A 1 0) ≠ 0 := by
    rw [a00, a10]
    have e : (2 * 2 + 1 * 1 : K) = 5 := by norm_num
    rw [e]
    intro h0
    rw [h0, mul_zero] at h5
    exact (by norm_num : (5 : K) ≠ 0) h5.symm
  have hdiag : ∀ r, 0 ≤ r → r < s.m_SystemSize → (eliminate sqrt s).m_A r r ≠ 0 := by
    intro r hr0 hrN
    obtain ⟨d0, d1⟩ := eliminate_size_two_diagonal sqrt s h1
    obtain rfl | rfl : r = 0 ∨ r = 1 := by omega
    · rw [d0]
      refine div_ne_zero ?_ hn
      rw [a00, a10]; norm_num
    · rw [d1]
      refine div_ne_zero ?_ hn
      rw [a00, a10, a01, a11]; norm_num
  have hfind := Solve_finds sqrt s (by omega) s.X_Generated (by rw [h1]; exact h5') hdiag
  refine ⟨?_, ?_, ?_, ?_, ?_, ?_⟩
  · rw [MatrixByVector_apply s _ _ 0 (by simp) (by omega), h1, rowDot, sum_Ico_zero_two]
    norm_num [knownA, knownX]
  · rw [MatrixByVector_apply s _ _ 1 (by omega) (by omega), h1, rowDot, sum_Ico_zero_two]
    norm_num [knownA, knownX]
  · rw [← h5' 0 (by simp) (by simp), rowDot, sum_Ico_zero_two, a00, a01, x0, x1]; norm_num
  · rw [← h5' 1 (by simp) (by simp), rowDot, sum_Ico_zero_two, a10, a11, x0, x1]; norm_num
  · rw [hfind 0 (by simp) (by omega), x0]
  · rw [hfind 1 (by simp) (by omega), x1]

/-- Instance of C9 over `ℂ` with the principal square root. -/
theorem known_example_witness :
    MatrixByVector (knownConstructed ℂ) (knownA ℂ) (knownX ℂ) 0 = 2 ∧
      MatrixByVector (knownConstructed ℂ) (knownA ℂ) (knownX ℂ) 1 = 2 ∧
      (knownConstructed ℂ).m_F 0 = 2 ∧ (knownConstructed ℂ).m_F 1 = 2 ∧
      (Solve (fun z : ℂ => z ^ (((2 : ℕ) : ℂ)⁻¹)) (knownConstructed ℂ)).X_Found 0 = 1 ∧
      (Solve (fun z : ℂ => z ^ (((2 : ℕ) : ℂ)⁻¹)) (knownConstructed ℂ)).X_Found 1 = 1 :=
  known_example (fun z : ℂ => z ^ (((2 : ℕ) : ℂ)⁻¹)) (complex_sqrt_mul_self 5)
    (knownConstructed ℂ) (construct_known ℂ)

/-- C10 (size one): for `N = 1` the elimination of `Solve` makes no rotation and
leaves the system unchanged, `Solve` leaves `A` and `F` unchanged, and it sets
`X_Found [0] = F [0] / A [0] [0]`. -/
theorem Solve_size_one (sqrt : K → K) (s : EquationSystem K) (h1 : s.m_SystemSize = 1) :
    eliminate sqrt s = s ∧ (Solve sqrt s).m_A = s.m_A ∧ (Solve sqrt s).m_F = s.m_F ∧
      (Solve sqrt s).X_Found 0 = s.m_F 0 / s.m_A 0 0 := by
  have he : eliminate sqrt s = s := by
    simp [eliminate, eliminationLoop, forUp, iterUp, h1]
  refine ⟨he, ?_⟩
  simp [Solve, he, backSubstitute, forDownToZero, iterDown, h1]

/-- Instance of C10 on the system `3 * x = 21` over `ℚ`. -/
theorem Solve_size_one_witness :
    eliminate sampleSqrt (unitSystem ℚ 3 21) = unitSystem ℚ 3 21 ∧
      (Solve sampleSqrt (unitSystem ℚ 3 21)).m_A = (unitSystem ℚ 3 21).m_A ∧
      (Solve sampleSqrt (unitSystem ℚ 3 21)).m_F = (unitSystem ℚ 3 21).m_F ∧
      (Solve sampleSqrt (unitSystem ℚ 3 21)).X_Found 0 =
        (unitSystem ℚ 3 21).m_F 0 / (unitSystem ℚ 3 21).m_A 0 0 :=
  Solve_size_one sampleSqrt (unitSystem ℚ 3 21) rfl

/-- C11, as stated, fails: for `A = [[0, 0], [1, 1]]` over `ℂ`, with the principal
square root, the rotation norm of `GetRotationMatrix (C, S, 0, 1)` during the
elimination is `1`, not zero. -/
theorem degenerate_norm_counterexample :
    rotationNorm (fun z : ℂ => z ^ (((2 : ℕ) : ℂ)⁻¹))
        (stateBefore (fun z : ℂ => z ^ (((2 : ℕ) : ℂ)⁻¹)) (degenerateSystem ℂ) 0 1) 0 1 = 1 ∧
      rotationNorm (fun z : ℂ => z ^ (((2 : ℕ) : ℂ)⁻¹))
        (stateBefore (fun z : ℂ => z ^ (((2 : ℕ) : ℂ)⁻¹)) (degenerateSystem ℂ) 0 1) 0 1 ≠ 0 := by
  have h := (degenerateSystem_facts (fun z : ℂ => z ^ (((2 : ℕ) : ℂ)⁻¹))).2.1
  have h1 := h.trans complex_sqrt_one
  exact ⟨h1, by rw [h1]; exact one_ne_zero⟩

/-- C11, amended: for `A = [[0, 0], [1, 1]]`, with `sqrt 1 * sqrt 1 = 1`, the
rotation norm of `GetRotationMatrix (C, S, 0, 1)` during the elimination is
`sqrt 1`, which is not zero, so no rotation norm met by `Solve` is zero; the
zero divisor of this system is the entry `A [1] [1]` after the elimination, by
which the first statement of back-substitution divides. -/
theorem degenerate_norm_nonzero (sqrt : K → K) (h1 : sqrt 1 * sqrt 1 = 1) :
    rotationNorm sqrt (stateBefore sqrt (degenerateSystem K) 0 1) 0 1 = sqrt 1 ∧
      sqrt 1 ≠ 0 ∧ NormsNonzero sqrt (degenerateSystem K) ∧
      (eliminate sqrt (degenerateSystem K)).m_A 1 1 = 0 ∧
      (Solve sqrt (degenerateSystem K)).X_Found 1 =
        (eliminate sqrt (degenerateSystem K)).m_F 1 /
          (eliminate sqrt (degenerateSystem K)).m_A 1 1 := by
  obtain ⟨_, hn, hd, hx⟩ := degenerateSystem_facts sqrt
  have hne : sqrt 1 ≠ 0 := by
    intro h0
    rw [h0, mul_zero] at h1
    exact zero_ne_one h1
  refine ⟨hn, hne, ?_, hd, hx⟩
  intro i j hi hij hj
  obtain ⟨rfl, rfl⟩ : i = 0 ∧ j = 1 := by
    have : j < 2 := hj
    omega
  rw [hn]
  exact hne

/-- Instance of the amended C11 over `ℂ` with the principal square root. -/
theorem degenerate_norm_nonzero_witness :
    rotationNorm (fun z : ℂ => z ^ (((2 : ℕ) : ℂ)⁻¹))
        (stateBefore (fun z : ℂ => z ^ (((2 : ℕ) : ℂ)⁻¹)) (degenerateSystem ℂ) 0 1) 0 1 =
      (1 : ℂ) ^ (((2 : ℕ) : ℂ)⁻¹) :=
  (degenerate_norm_nonzero (fun z : ℂ => z ^ (((2 : ℕ) : ℂ)⁻¹))
    (complex_sqrt_mul_self 1)).1

/-- C12, as stated, fails: for `A = [[0, 0], [1, 1]]` over `ℂ`, with the principal
square root, `Solve` meets a zero divisor, the entry `A [1] [1]` after the
elimination, and yet the call completes and returns a state in which
`X_Found [1]` is the quotient by that divisor. -/
theorem Solve_degenerate_counterexample :
    MeetsZeroDivisor (fun z : ℂ => z ^ (((2 : ℕ) : ℂ)⁻¹)) (degenerateSystem ℂ) ∧
      (eliminate (fun z : ℂ => z ^ (((2 : ℕ) : ℂ)⁻¹)) (degenerateSystem ℂ)).m_A 1 1 = 0 ∧
      SolveChecked (fun z : ℂ => z ^ (((2 : ℕ) : ℂ)⁻¹)) (degenerateSystem ℂ) =
        some (Solve (fun z : ℂ => z ^ (((2 : ℕ) : ℂ)⁻¹)) (degenerateSystem ℂ)) ∧
      (Solve (fun z : ℂ => z ^ (((2 : ℕ) : ℂ)⁻¹)) (degenerateSystem ℂ)).X_Found 1 =
        (eliminate (fun z : ℂ => z ^ (((2 : ℕ) : ℂ)⁻¹)) (degenerateSystem ℂ)).m_F 1 /
          (eliminate (fun z : ℂ => z ^ (((2 : ℕ) : ℂ)⁻¹)) (degenerateSystem ℂ)).m_A 1 1 := by
  exact ⟨degenerateSystem_MeetsZeroDivisor _, (degenerateSystem_facts _).2.2.1,
    SolveChecked_eq_some _ _ (by decide), (degenerateSystem_facts _).2.2.2⟩

/-- C12, amended: whenever `Solve` meets a zero divisor (a zero rotation norm,
or a zero diagonal entry in back-substitution) it surfaces no error: the call
completes, and it returns a state in which every `X_Found [r]`, `0 ≤ r < N`, is
the quotient `(F [r] - sum_{c = r+1}^{N-1} X_Found [c] * A [r] [c]) / A [r] [r]`
of the eliminated system, the division being made whatever the divisor. -/
theorem Solve_divides_whatever_divisor (sqrt : K → K) (s : EquationSystem K)
    (hz : MeetsZeroDivisor sqrt s) :
    SolveChecked sqrt s = some (Solve sqrt s) ∧
      ∀ r : Int, 0 ≤ r → r < s.m_SystemSize →
        (Solve sqrt s).X_Found r =
          ((eliminate sqrt s).m_F r -
            ∑ c ∈ Finset.Ico (r + 1) s.m_SystemSize,
              (Solve sqrt s).X_Found c * (eliminate sqrt s).m_A r c) /
            (eliminate sqrt s).m_A r r :=
  ⟨SolveChecked_eq_some sqrt s (MeetsZeroDivisor_size sqrt s hz),
    Solve_BackSubstituted sqrt s (MeetsZeroDivisor_size sqrt s hz)⟩

/-- Instance of the amended C12 on `A = [[0, 0], [1, 1]]` over `ℂ`. -/
theorem Solve_divides_whatever_divisor_witness :
    SolveChecked (fun z : ℂ => z ^ (((2 : ℕ) : ℂ)⁻¹)) (degenerateSystem ℂ) =
      some (Solve (fun z : ℂ => z ^ (((2 : ℕ) : ℂ)⁻¹)) (degenerateSystem ℂ)) :=
  (Solve_divides_whatever_divisor (fun z : ℂ => z ^ (((2 : ℕ) : ℂ)⁻¹)) (degenerateSystem ℂ)
    (degenerateSystem_MeetsZeroDivisor _)).1

/-- C13, as stated, fails: constructing a system of size `0` succeeds and yields
a system object, of size `0`. -/
theorem construct_zero_counterexample :
    (EquationSystem.construct 0 (sampleX ℚ) (sampleA ℚ)).isSome = true ∧
      (EquationSystem.construct 0 (sampleX ℚ) (sampleA ℚ)).map
        (fun s => s.m_SystemSize) = some 0 := by
  constructor
  · simp [EquationSystem.construct, AllocateCells]
  · simp only [EquationSystem.construct, AllocateCells, lt_irrefl, if_false, Option.map_some']
    rw [(generate_spec (sampleX ℚ) (sampleA ℚ) _).1]

/-- C13, amended: for every negative size the construction fails, by the
exception of the array allocation in `AllocateCells`, and yields no system
object; the size `0` is not rejected: there the construction yields a system,
of size `0`. -/
theorem construct_rejects_negative (Size : Int) (randX : Int → K) (randA : Int → Int → K)
    (hneg : Size < 0) :
    EquationSystem.construct Size randX randA = none ∧
      ∃ s, EquationSystem.construct 0 randX randA = some s ∧ s.m_SystemSize = 0 := by
  unfold EquationSystem.construct AllocateCells
  rw [if_pos hneg, if_neg (lt_irrefl 0)]
  exact ⟨rfl, _, rfl, (generate_spec randX randA _).1⟩

/-- Instance of the amended C13 at the size `-1` over `ℚ`. -/
theorem construct_rejects_negative_witness :
    (-1 : Int) < 0 ∧ EquationSystem.construct (-1) (sampleX ℚ) (sampleA ℚ) = none :=
  ⟨by decide, (construct_rejects_negative (-1) (sampleX ℚ) (sampleA ℚ) (by decide)).1⟩

/-- C14 (simultaneous rotation update): for indices `i ≠ j` and any coefficients,
`MultiplySystem (i, j, C, S)` yields `F [i] = C * F [i] + S * F [j]`,
`F [j] = C * F [j] - S * F [i]` and, for every column `0 ≤ k < N`,
`A [i] [k] = C * A [i] [k] + S * A [j] [k]` and
`A [j] [k] = C * A [j] [k] - S * A [i] [k]`, every right-hand side being read in
the state before the call (the column `k = i` included). -/
theorem MultiplySystem_simultaneous (s : EquationSystem K) (i j : Int) (hij : i ≠ j)
    (C S : K) :
    (MultiplySystem s i j C S).m_F i = C * s.m_F i + S * s.m_F j ∧
      (MultiplySystem s i j C S).m_F j = C * s.m_F j - S * s.m_F i ∧
      ∀ k, 0 ≤ k → k < s.m_SystemSize →
        (MultiplySystem s i j C S).m_A i k = C * s.m_A i k + S * s.m_A j k ∧
          (MultiplySystem s i j C S).m_A j k = C * s.m_A j k - S * s.m_A i k := by
  refine ⟨?_, ?_, fun k hk0 hkN => ⟨?_, ?_⟩⟩
  · rw [MultiplySystem_m_F s i j hij, if_pos rfl]
  · rw [MultiplySystem_m_F s i j hij, if_neg (Ne.symm hij), if_pos rfl]
  · rw [MultiplySystem_m_A s i j hij, if_pos ⟨hk0, hkN⟩, if_pos rfl]
  · rw [MultiplySystem_m_A s i j hij, if_pos ⟨hk0, hkN⟩, if_neg (Ne.symm hij), if_pos rfl]

/-- Instance of C14 on the system `[[3, 2], [4, 1]] * x = [17, 26]` over `ℚ` with
`C = 3/5` and `S = 4/5`: the new `F [0]` and, in the column `k = 0`, the new
`A [0] [0]` and `A [1] [0]`. -/
theorem MultiplySystem_simultaneous_witness :
    (MultiplySystem (sampleSystem ℚ) 0 1 (3 / 5) (4 / 5)).m_F 0 = 31 ∧
      (MultiplySystem (sampleSystem ℚ) 0 1 (3 / 5) (4 / 5)).m_A 0 0 = 5 ∧
      (MultiplySystem (sampleSystem ℚ) 0 1 (3 / 5) (4 / 5)).m_A 1 0 = 0 := by
  obtain ⟨h1, _, h3⟩ := MultiplySystem_simultaneous (sampleSystem ℚ) 0 1 (by decide) (3 / 5)
    (4 / 5)
  obtain ⟨h4, h5⟩ := h3 0 (le_refl 0) (by decide)
  rw [h1, h4, h5]
  norm_num [sampleSystem, sampleA]

/-- C15 (frame of `Solve`): for every input `Solve` leaves `X_Generated` as it
was, and `MultiplySystem (i, j, C, S)` leaves every row of `A` other than the
rows `i` and `j`, and every cell of `F` other than `F [i]` and `F [j]`,
unchanged (as well as `X_Generated`). -/
theorem Solve_frame (sqrt : K → K) (s : EquationSystem K) (i j : Int) (C S : K) :
    (Solve sqrt s).X_Generated = s.X_Generated ∧
      (MultiplySystem s i j C S).X_Generated = s.X_Generated ∧
      (∀ r c, r ≠ i → r ≠ j → (MultiplySystem s i j C S).m_A r c = s.m_A r c) ∧
      ∀ r, r ≠ i → r ≠ j → (MultiplySystem s i j C S).m_F r = s.m_F r := by
  obtain ⟨_, h2, _, h4, h5⟩ := MultiplySystem_frame s i j C S
  exact ⟨(backSubstitute_frame _).2.2.2.trans (eliminate_frame sqrt s).2, h2, h5, h4⟩

end Claims

section ClaimsRandom

variable {K : Type} [Field K] [DecidableEq K]

/-- C16 (zero fallback of the random helpers): `GetRandomInt`, for 32-bit `int`
arguments `iMin < iMax` and a value `rand () ≥ 0`, returns its raw sample when
that is not `0` and `1` otherwise, a value that is never `0` and lies in
`iMin .. iMax`; `GetRandomDouble`, in exact arithmetic, returns its raw sample
when that is not `0` and `1` otherwise, a value that is never `0`. -/
theorem random_zero_fallback (rand iMin iMax : Int) (hlt : iMin < iMax) (hrand : 0 ≤ rand)
    (hMin : -2147483648 ≤ iMin) (hMax : iMax ≤ 2147483647) (rand' RAND_MAX : Int)
    (dMin dMax : K) :
    (GetRandomInt rand iMin iMax =
        if rawRandomInt rand iMin iMax ≠ 0 then rawRandomInt rand iMin iMax else 1) ∧
      GetRandomInt rand iMin iMax ≠ 0 ∧
      iMin ≤ GetRandomInt rand iMin iMax ∧ GetRandomInt rand iMin iMax ≤ iMax ∧
      (GetRandomDouble rand' RAND_MAX dMin dMax =
        if rawRandomDouble rand' RAND_MAX dMin dMax ≠ 0 then
          rawRandomDouble rand' RAND_MAX dMin dMax
        else 1) ∧
      GetRandomDouble rand' RAND_MAX dMin dMax ≠ 0 := by
  obtain ⟨b1, b2⟩ := rawRandomInt_bounds rand iMin iMax hlt hrand hMin hMax
  have e : GetRandomInt rand iMin iMax =
      if rawRandomInt rand iMin iMax ≠ 0 then rawRandomInt rand iMin iMax else 1 := rfl
  have e' : GetRandomDouble rand' RAND_MAX dMin dMax =
      if rawRandomDouble rand' RAND_MAX dMin dMax ≠ 0 then
        rawRandomDouble rand' RAND_MAX dMin dMax
      else 1 := rfl
  refine ⟨e, ?_, ?_, ?_, e', ?_⟩
  · rw [e]; split_ifs with h
    · exact h
    · exact one_ne_zero
  · rw [e]; split_ifs with h
    · exact b1
    · have : rawRandomInt rand iMin iMax = 0 := not_not.mp h
      omega
  · rw [e]; split_ifs with h
    · omega
    · have : rawRandomInt rand iMin iMax = 0 := not_not.mp h
      omega
  · rw [e']; split_ifs with h
    · exact h
    · exact one_ne_zero

/-- Instance of C16: `GetRandomInt` for `rand () = 10` and the range `-3 .. 4`
has the raw sample `0` and returns `1`; `GetRandomDouble` over `ℚ` for
`rand () = 1`, `RAND_MAX = 2` and the range `-10 .. 10` has the raw sample `0`
and returns `1`. -/
theorem random_zero_fallback_witness :
    rawRandomInt 10 (-3) 4 = 0 ∧ GetRandomInt 10 (-3) 4 = 1 ∧
      rawRandomDouble 1 2 (-10 : ℚ) 10 = 0 ∧ GetRandomDouble 1 2 (-10 : ℚ) 10 = 1 := by
  have h := random_zero_fallback 10 (-3) 4 (by decide) (by decide) (by decide) (by decide)
    1 2 (-10 : ℚ) 10
  have r1 : rawRandomInt 10 (-3) 4 = 0 := by decide
  have r2 : rawRandomDouble 1 2 (-10 : ℚ) 10 = 0 := by norm_num [rawRandomDouble]
  refine ⟨r1, ?_, r2, ?_⟩
  · rw [h.1, r1]; rfl
  · rw [h.2.2.2.2.1, r2]; simp

end ClaimsRandom

section ClaimsComplex

variable {K : Type} [Field K]

/-- C17 (zero norm): over `ℂ`, with `sqrt z * sqrt z = z`, the divisor `buf` of
`GetRotationMatrix (C, S, i, j)` is zero if and only if `A [j] [i] = i * A [i] [i]`
or `A [j] [i] = -i * A [i] [i]` (`i` the imaginary unit); for
`A = [[1 + i, 1 + i], [-1 + i, 1 + i]]`, whose determinant is `2 + 2 * i ≠ 0` and
whose entries all have nonzero real and imaginary parts, the norm of the first
rotation `(0, 1)` of `Solve` is zero. -/
theorem rotationNorm_eq_zero_iff (sqrt : ℂ → ℂ) (hsqrt : ∀ z, sqrt z * sqrt z = z)
    (s : EquationSystem ℂ) (i j : Int) :
    GetRotationMatrix sqrt s i j =
        (s.m_A i i / rotationNorm sqrt s i j, s.m_A j i / rotationNorm sqrt s i j) ∧
      (rotationNorm sqrt s i j = 0 ↔
        s.m_A j i = Complex.I * s.m_A i i ∨ s.m_A j i = -Complex.I * s.m_A i i) ∧
      rotationNorm sqrt (stateBefore sqrt (isotropicSystem ℂ Complex.I) 0 1) 0 1 = 0 ∧
      (isotropicSystem ℂ Complex.I).m_A 0 0 * (isotropicSystem ℂ Complex.I).m_A 1 1 -
          (isotropicSystem ℂ Complex.I).m_A 0 1 * (isotropicSystem ℂ Complex.I).m_A 1 0 =
        2 + 2 * Complex.I ∧
      (2 + 2 * Complex.I ≠ 0) ∧
      ∀ r c : Int, 0 ≤ r → r < 2 → 0 ≤ c → c < 2 →
        ((isotropicSystem ℂ Complex.I).m_A r c).re ≠ 0 ∧
          ((isotropicSystem ℂ Complex.I).m_A r c).im ≠ 0 := by
  have hiff : ∀ a b : ℂ, sqrt (a * a + b * b) = 0 ↔ b = Complex.I * a ∨ b = -Complex.I * a :=
    fun a b => (sqrt_eq_zero_iff sqrt hsqrt _).trans (complex_sq_add_sq_eq_zero_iff a b)
  refine ⟨rfl, hiff _ _, ?_, ?_, ?_, ?_⟩
  · rw [stateBefore_start]
    refine (hiff _ _).mpr (Or.inl ?_)
    simp only [isotropicSystem]
    norm_num
    linear_combination (-1 : ℂ) * Complex.I_sq
  · simp only [isotropicSystem]
    norm_num
    ring
  · intro h
    have := congrArg Complex.re h
    norm_num at this
  · intro r c hr0 hr2 hc0 hc2
    have hr : r = 0 ∨ r = 1 := by omega
    have hc : c = 0 ∨ c = 1 := by omega
    rcases hr with rfl | rfl <;> rcases hc with rfl | rfl <;> simp [isotropicSystem]

/-- Instance of C17 over `ℂ` with the principal square root: the norm of the
first rotation of `Solve` for `[[1 + i, 1 + i], [-1 + i, 1 + i]]` is zero. -/
theorem rotationNorm_eq_zero_iff_witness :
    rotationNorm (fun z : ℂ => z ^ (((2 : ℕ) : ℂ)⁻¹))
      (stateBefore (fun z : ℂ => z ^ (((2 : ℕ) : ℂ)⁻¹)) (isotropicSystem ℂ Complex.I) 0 1)
      0 1 = 0 :=
  (rotationNorm_eq_zero_iff (fun z : ℂ => z ^ (((2 : ℕ) : ℂ)⁻¹)) complex_sqrt_mul_self
    (isotropicSystem ℂ Complex.I) 0 1).2.2.1

/-- C18 (index safety): for a size `N ≥ 1` the run of `Solve` with checked array
accesses never takes the out-of-bounds branch and returns what `Solve` returns,
and so do `GetRotationMatrix` and `MultiplySystem` for indices `0 ≤ i < j < N`;
for the size `0` no rotation is made and the first statement of
back-substitution accesses the index `-1`, out of bounds. -/
theorem Solve_index_safety (sqrt : K → K) (s : EquationSystem K) (hN : 1 ≤ s.m_SystemSize) :
    SolveChecked sqrt s = some (Solve sqrt s) ∧
      (∀ i j : Int, 0 ≤ i → i < j → j < s.m_SystemSize →
        GetRotationMatrixChecked sqrt s i j = some (GetRotationMatrix sqrt s i j) ∧
          ∀ C S : K, MultiplySystemChecked s i j C S = some (MultiplySystem s i j C S)) ∧
      ∀ s0 : EquationSystem K, s0.m_SystemSize = 0 →
        eliminateChecked sqrt s0 = some s0 ∧
          readVec s0.m_SystemSize s0.m_F (s0.m_SystemSize - 1) = none ∧
          lastRowChecked s0 = none ∧ SolveChecked sqrt s0 = none :=
  ⟨SolveChecked_eq_some sqrt s hN,
    fun i j hi hij hj =>
      ⟨GetRotationMatrixChecked_eq_some sqrt s i j ⟨hi, by omega⟩ ⟨by omega, hj⟩,
        fun C S => MultiplySystemChecked_eq_some s i j ⟨hi, by omega⟩ ⟨by omega, hj⟩ C S⟩,
    fun s0 h0 => SolveChecked_size_zero sqrt s0 h0⟩

/-- Instance of C18 on the system `[[3, 2], [4, 1]] * x = [17, 26]` over `ℚ`. -/
theorem Solve_index_safety_witness :
    SolveChecked sampleSqrt (sampleSystem ℚ) = some (Solve sampleSqrt (sampleSystem ℚ)) :=
  (Solve_index_safety sampleSqrt (sampleSystem ℚ) (by decide)).1

/-- C19 (the pivot becomes the norm): with `sqrt z * sqrt z = z`, (a) for
`0 ≤ i < j < N` and a nonzero norm `n`, `GetRotationMatrix (C, S, i, j)` followed
by `MultiplySystem (i, j, C, S)` leaves `A [i] [i] = n`; (b) when every norm met
during the elimination is nonzero, each diagonal entry `A [i] [i]`, `i < N - 1`,
after the elimination is the norm of the last rotation `(i, N - 1)` of its
column and is nonzero, so that (c) a zero diagonal entry after the elimination
can only be `A [N-1] [N-1]`. -/
theorem pivot_becomes_norm (sqrt : K → K) (hsqrt : ∀ z, sqrt z * sqrt z = z)
    (s : EquationSystem K) :
    (∀ i j : Int, 0 ≤ i → i < j → j < s.m_SystemSize →
        sqrt (s.m_A i i * s.m_A i i + s.m_A j i * s.m_A j i) ≠ 0 →
        (MultiplySystem s i j (GetRotationMatrix sqrt s i j).1
          (GetRotationMatrix sqrt s i j).2).m_A i i =
          sqrt (s.m_A i i * s.m_A i i + s.m_A j i * s.m_A j i)) ∧
      (NormsNonzero sqrt s → ∀ i : Int, 0 ≤ i → i < s.m_SystemSize - 1 →
        (eliminate sqrt s).m_A i i =
            rotationNorm sqrt (stateBefore sqrt s i (s.m_SystemSize - 1)) i
              (s.m_SystemSize - 1) ∧
          (eliminate sqrt s).m_A i i ≠ 0) ∧
      (NormsNonzero sqrt s → ∀ r : Int, 0 ≤ r → r < s.m_SystemSize →
        (eliminate sqrt s).m_A r r = 0 → r = s.m_SystemSize - 1) := by
  have hb : NormsNonzero sqrt s → ∀ i : Int, 0 ≤ i → i < s.m_SystemSize - 1 →
      (eliminate sqrt s).m_A i i =
          rotationNorm sqrt (stateBefore sqrt s i (s.m_SystemSize - 1)) i
            (s.m_SystemSize - 1) ∧
        (eliminate sqrt s).m_A i i ≠ 0 := by
    intro hnorm i hi0 hiN
    have h := (stateBefore_pivot_eq sqrt hsqrt s hnorm (s.m_SystemSize - 1) s.m_SystemSize
      (by omega) (by omega) (le_refl _)).1 i hi0 hiN
    rw [← eliminate_eq_stateBefore] at h
    refine ⟨h, ?_⟩
    rw [h]
    exact hnorm i (s.m_SystemSize - 1) hi0 (by omega) (by omega)
  refine ⟨fun i j hi hij hj hn => ?_, hb, fun hnorm r hr0 hrN hz => ?_⟩
  · exact rotateStep_pivot sqrt hsqrt i j (by omega) s ⟨hi, by omega⟩ hn
  · by_contra hne
    exact (hb hnorm r hr0 (by omega)).2 hz

/-- Instance of C19 on the system `[[3, 2], [4, 1]]` over `ℂ`, rotation `(0, 1)`:
the new pivot is the principal square root of `3 * 3 + 4 * 4`. -/
theorem pivot_becomes_norm_witness :
    (MultiplySystem (sampleSystem ℂ) 0 1
        (GetRotationMatrix (fun z : ℂ => z ^ (((2 : ℕ) : ℂ)⁻¹)) (sampleSystem ℂ) 0 1).1
        (GetRotationMatrix (fun z : ℂ => z ^ (((2 : ℕ) : ℂ)⁻¹)) (sampleSystem ℂ) 0 1).2).m_A
        0 0 =
      ((sampleSystem ℂ).m_A 0 0 * (sampleSystem ℂ).m_A 0 0 +
        (sampleSystem ℂ).m_A 1 0 * (sampleSystem ℂ).m_A 1 0) ^ (((2 : ℕ) : ℂ)⁻¹) :=
  (pivot_becomes_norm (fun z : ℂ => z ^ (((2 : ℕ) : ℂ)⁻¹)) complex_sqrt_mul_self
    (sampleSystem ℂ)).1 0 1 (le_refl 0) (by norm_num)
    (by rw [show (sampleSystem ℂ).m_SystemSize = 2 from rfl]; norm_num)
    (complex_sqrt_ne_zero (by norm_num [sampleSystem, sampleA]))

/-- C20 (complex-orthogonal, not unitary): over `ℂ`, with `sqrt z * sqrt z = z`,
the coefficients of `GetRotationMatrix` satisfy `C * C + S * S = 1` whenever the
norm is nonzero; for the pivot `a = 1` and the target `b = i / 2` the norm is
nonzero and `|C|^2 + |S|^2 = 5 / 3`, which is not `1`. -/
theorem rotation_orthogonal_not_unitary (sqrt : ℂ → ℂ) (hsqrt : ∀ z, sqrt z * sqrt z = z) :
    (∀ (s : EquationSystem ℂ) (i j : Int),
        sqrt (s.m_A i i * s.m_A i i + s.m_A j i * s.m_A j i) ≠ 0 →
        (GetRotationMatrix sqrt s i j).1 * (GetRotationMatrix sqrt s i j).1 +
          (GetRotationMatrix sqrt s i j).2 * (GetRotationMatrix sqrt s i j).2 = 1) ∧
      (skewSystem ℂ Complex.I).m_A 0 0 = 1 ∧
      (skewSystem ℂ Complex.I).m_A 1 0 = Complex.I / 2 ∧
      rotationNorm sqrt (skewSystem ℂ Complex.I) 0 1 ≠ 0 ∧
      Complex.normSq (GetRotationMatrix sqrt (skewSystem ℂ Complex.I) 0 1).1 +
          Complex.normSq (GetRotationMatrix sqrt (skewSystem ℂ Complex.I) 0 1).2 = 5 / 3 ∧
      Complex.normSq (GetRotationMatrix sqrt (skewSystem ℂ Complex.I) 0 1).1 +
          Complex.normSq (GetRotationMatrix sqrt (skewSystem ℂ Complex.I) 0 1).2 ≠ 1 := by
  have harg : (skewSystem ℂ Complex.I).m_A 0 0 * (skewSystem ℂ Complex.I).m_A 0 0 +
      (skewSystem ℂ Complex.I).m_A 1 0 * (skewSystem ℂ Complex.I).m_A 1 0 = 3 / 4 := by
    simp only [skewSystem]
    norm_num
    linear_combination (1 / 4 : ℂ) * Complex.I_sq
  have hn : sqrt (3 / 4) ≠ 0 := sqrt_ne_zero sqrt hsqrt (by norm_num)
  have hsq : Complex.normSq (sqrt (3 / 4)) = 3 / 4 := by
    have h1 : Complex.normSq (sqrt (3 / 4)) * Complex.normSq (sqrt (3 / 4)) = 9 / 16 := by
      rw [← Complex.normSq_mul, hsqrt]
      norm_num [Complex.normSq_apply]
    have h2 := Complex.normSq_nonneg (sqrt (3 / 4))
    nlinarith
  have hsum : Complex.normSq (GetRotationMatrix sqrt (skewSystem ℂ Complex.I) 0 1).1 +
      Complex.normSq (GetRotationMatrix sqrt (skewSystem ℂ Complex.I) 0 1).2 = 5 / 3 := by
    simp only [GetRotationMatrix, harg]
    rw [Complex.normSq_div, Complex.normSq_div, hsq]
    simp only [skewSystem]
    norm_num [Complex.normSq_apply]
  refine ⟨fun s i j h => GetRotationMatrix_unit sqrt hsqrt s i j h, ?_, ?_, ?_, hsum, ?_⟩
  · simp [skewSystem]
  · simp [skewSystem]
  · unfold rotationNorm
    rw [harg]
    exact hn
  · rw [hsum]
    norm_num

/-- Instance of C20 over `ℂ` with the principal square root: `|C|^2 + |S|^2 = 5/3`
for the pivot `1` and the target `i / 2`. -/
theorem rotation_orthogonal_not_unitary_witness :
    Complex.normSq (GetRotationMatrix (fun z : ℂ => z ^ (((2 : ℕ) : ℂ)⁻¹))
        (skewSystem ℂ Complex.I) 0 1).1 +
      Complex.normSq (GetRotationMatrix (fun z : ℂ => z ^ (((2 : ℕ) : ℂ)⁻¹))
        (skewSystem ℂ Complex.I) 0 1).2 = 5 / 3 :=
  (rotation_orthogonal_not_unitary (fun z : ℂ => z ^ (((2 : ℕ) : ℂ)⁻¹))
    complex_sqrt_mul_self).2.2.2.2.1

end ClaimsComplex

end GivensRotationSolveMethod
